import Mathlib

/-!
# pdfer: page-range parsing and the wrapped-text layout routine

A shallow embedding of two functions of the repository:

* `parseRangeString` (`src/js/handlers/mergeSplitHandler.js`), and
* `drawWrappedText` (`src/js/handlers/videoHandler.js`).

Conventions of the embedding.

* A JavaScript string is a `List Char`.  Every character the two functions
  test for (`'\n'`, `' '`, `','`, `'-'`, `'#'`, `'*'`, the white space removed
  by `trim`) is a single UTF-16 code unit, so splitting, prefix tests and the
  prefix removals after a successful prefix test agree on code points and on
  code units.
* JavaScript numbers are exact: integers (`Int`) in `parseRangeString`,
  rationals (`ℚ`) in `drawWrappedText`.  `NaN` is `none`.
* The effects of `drawWrappedText` on the pdf-lib objects are made explicit:
  the routine returns the list of draw calls it makes, in order, next to the
  final cursor.
-/

namespace Pdfer

/-- A JavaScript string, as the list of its characters. -/
abbrev Str := List Char

/-! ## String primitives -/

/-- White space and line terminators of ECMAScript, as removed by
`String.prototype.trim` and skipped by `parseInt`. -/
def isWhiteSpace (c : Char) : Bool :=
  c.toNat == 0x09 || c.toNat == 0x0A || c.toNat == 0x0B || c.toNat == 0x0C ||
  c.toNat == 0x0D || c.toNat == 0x20 || c.toNat == 0xA0 || c.toNat == 0x1680 ||
  (0x2000 ≤ c.toNat && c.toNat ≤ 0x200A) ||
  c.toNat == 0x2028 || c.toNat == 0x2029 || c.toNat == 0x202F ||
  c.toNat == 0x205F || c.toNat == 0x3000 || c.toNat == 0xFEFF

/-- The method `s.trim()`. -/
def trim (s : Str) : Str :=
  ((s.dropWhile isWhiteSpace).reverse.dropWhile isWhiteSpace).reverse

/-- The method `s.split(sep)` for a one-character separator: the pieces between
the occurrences of `sep`, empty pieces included; never the empty array. -/
def split (sep : Char) : Str → List Str
  | [] => [[]]
  | c :: cs =>
    if c = sep then [] :: split sep cs
    else
      match split sep cs with
      | [] => [[c]]
      | w :: ws => (c :: w) :: ws

/-- The method `s.startsWith(p)`. -/
def startsWith (p s : Str) : Bool := p.isPrefixOf s

/-- The method `s.endsWith(p)`. -/
def endsWith (p s : Str) : Bool := p.isSuffixOf s

/-- The method `s.substring(n)`: the string without its first `n` characters. -/
def substring (n : Nat) (s : Str) : Str := s.drop n

/-- The call `word.replace(/\*\*/g, '')`: every occurrence of two asterisks,
found from left to right without overlap, is removed. -/
def replaceStars : Str → Str
  | '*' :: '*' :: rest => replaceStars rest
  | c :: rest => c :: replaceStars rest
  | [] => []

/-- The value of a run of decimal digits, most significant first. -/
def digitsValue (ds : List Char) : Nat :=
  ds.foldl (fun acc d => 10 * acc + (d.toNat - 48)) 0

/-- The call `parseInt(s, 10)`: leading white space is skipped, one sign is
read, then the longest run of decimal digits; `none` (NaN) when that run is
empty. -/
def parseInt (s : Str) : Option Int :=
  let body := s.dropWhile isWhiteSpace
  let signed : Bool × Str :=
    match body with
    | '-' :: r => (true, r)
    | '+' :: r => (false, r)
    | r => (false, r)
  let ds := signed.2.takeWhile Char.isDigit
  if ds = [] then none
  else if signed.1 then some (-(digitsValue ds : Int))
  else some (digitsValue ds : Int)

/-! ## `parseRangeString` -/

/-- The method `pageNumbers.add(x)` of a `Set`, kept in insertion order. -/
def setAdd (pageNumbers : List Int) (x : Int) : List Int :=
  if x ∈ pageNumbers then pageNumbers else pageNumbers ++ [x]

/-- The loop `for (let i = start; i <= end; i++)` of the range branch. -/
def rangeLoop (maxPage start stop : Int) (pageNumbers : List Int) : List Int :=
  (List.range (stop - start + 1).toNat).foldl
    (fun acc k =>
      let i := start + (k : Int)
      if 0 < i ∧ i ≤ maxPage then setAdd acc (i - 1) else acc)
    pageNumbers

/-- The body of the loop over the comma-separated parts. -/
def parsePart (maxPage : Int) (pageNumbers : List Int) (part : Str) : List Int :=
  let trimmedPart := trim part
  if '-' ∈ trimmedPart then
    let nums := (split '-' trimmedPart).map parseInt
    match nums.head?, nums.tail.head? with
    | some (some start), some (some stop) =>
      if start ≤ stop then rangeLoop maxPage start stop pageNumbers else pageNumbers
    | _, _ => pageNumbers
  else
    match parseInt trimmedPart with
    | some num =>
      if 0 < num ∧ num ≤ maxPage then setAdd pageNumbers (num - 1) else pageNumbers
    | none => pageNumbers

/-- The function `parseRangeString(rangeString, maxPage)`; the final
`sort((a, b) => a - b)` is the ascending numeric sort. -/
def parseRangeString (rangeString : Str) (maxPage : Int) : List Int :=
  ((split ',' rangeString).foldl (parsePart maxPage) []).insertionSort (· ≤ ·)

/-! ## `drawWrappedText` -/

/-- A pdf-lib page, as far as the routine reads it: `getWidth()` and
`getHeight()`. -/
structure Page where
  width : ℚ
  height : ℚ
deriving DecidableEq, Repr

/-- One draw call on a page.  `page` is the number of `pdfDoc.addPage()` calls
made before the draw: `0` is the page passed in, `k + 1` the page returned by
the call number `k`.  `F` is the type of font handles.  The colour is handed
unchanged to every call and is left out. -/
inductive DrawCall (F : Type) where
  | drawText (page : Nat) (text : Str) (x y : ℚ) (font : F) (size : ℚ)
  | drawLine (page : Nat) (startX startY endX endY thickness : ℚ)
deriving DecidableEq, Repr

/-- The variables `currentPage` and `currentY`; `pageNo` counts the calls of
`pdfDoc.addPage()` made so far and so names the current page. -/
structure Cursor where
  pageNo : Nat
  currentPage : Page
  currentY : ℚ
deriving DecidableEq, Repr

/-- What stays fixed during one call: the collaborators (`addPage k` is the
page that call number `k` of `pdfDoc.addPage()` returns, `widthOfTextAtSize`
the font metric), the arguments `font`, `boldFont`, `size`, and the constant
`maxWidth`. -/
structure Env (F : Type) where
  addPage : Nat → Page
  widthOfTextAtSize : F → Str → ℚ → ℚ
  font : F
  boldFont : F
  size : ℚ
  maxWidth : ℚ

/-- The constant `margin`. -/
def margin : ℚ := 50

/-- The constant `defaultLineHeight`. -/
def Env.defaultLineHeight {F : Type} (e : Env F) : ℚ := e.size * 1.2

/-- The string literal of the bullet `drawText` call, as the bytes of the
source file decode in UTF-8 (U+00E2, U+20AC, U+00A2). -/
def bulletGlyph : Str := [Char.ofNat 0xE2, Char.ofNat 0x20AC, Char.ofNat 0xA2]

/-- The check `if (currentY < margin) { currentPage = pdfDoc.addPage(); ... }`,
made before each line and after each forced break of the word wrap. -/
def pageBreak {F : Type} (e : Env F) (c : Cursor) : Cursor :=
  if c.currentY < margin then
    { pageNo := c.pageNo + 1
      currentPage := e.addPage c.pageNo
      currentY := (e.addPage c.pageNo).height - margin }
  else c

/-- The value `testLine` of the word loop: the word alone when the buffer is
empty, else the buffer, one space and the word. -/
def testLine (lineBuffer word : Str) : Str :=
  if lineBuffer = [] then word else lineBuffer ++ ' ' :: word

/-- The value `isWordBold` of the word loop. -/
def isWordBold (word : Str) : Bool :=
  startsWith ['*', '*'] word && endsWith ['*', '*'] word

/-- The value `width` of the word loop.  The source computes `wordToMeasure`
and never reads it: the text measured is `testLine`, in `wordFontToUse`. -/
def measuredWidth {F : Type} (e : Env F) (currentFont : F) (currentSize : ℚ)
    (lineBuffer word : Str) : ℚ :=
  let _wordToMeasure := if isWordBold word then replaceStars word else word
  let wordFontToUse := if isWordBold word then e.boldFont else currentFont
  e.widthOfTextAtSize wordFontToUse (testLine lineBuffer word) currentSize

/-- The loop `for (const word of words)`: returns the cursor and the line buffer
after the last word, and the draw calls made on the way. -/
def wrapLoop {F : Type} (e : Env F) (currentFont : F) (currentSize xOffset : ℚ) :
    Cursor → Str → List Str → Cursor × Str × List (DrawCall F)
  | c, lineBuffer, [] => (c, lineBuffer, [])
  | c, lineBuffer, word :: rest =>
    if measuredWidth e currentFont currentSize lineBuffer word < e.maxWidth - xOffset then
      wrapLoop e currentFont currentSize xOffset c (testLine lineBuffer word) rest
    else
      let call := DrawCall.drawText c.pageNo lineBuffer (margin + xOffset) c.currentY
        currentFont currentSize
      let c1 := pageBreak e { c with currentY := c.currentY - e.defaultLineHeight }
      let r := wrapLoop e currentFont currentSize xOffset c1 word rest
      (r.1, r.2.1, call :: r.2.2)

/-- The word wrapping of one line: the loop over the words of `textToDraw`,
then the draw of the last line and its advance. -/
def wrapAndDraw {F : Type} (e : Env F) (currentFont : F) (currentSize xOffset : ℚ)
    (c : Cursor) (textToDraw : Str) : Cursor × List (DrawCall F) :=
  let r := wrapLoop e currentFont currentSize xOffset c [] (split ' ' textToDraw)
  ({ r.1 with currentY := r.1.currentY - e.defaultLineHeight },
    r.2.2 ++ [DrawCall.drawText r.1.pageNo r.2.1 (margin + xOffset) r.1.currentY
      currentFont currentSize])

/-- The body of the loop `for (const line of lines)`. -/
def processLine {F : Type} (e : Env F) (c0 : Cursor) (line : Str) :
    Cursor × List (DrawCall F) :=
  let c := pageBreak e c0
  if trim line = [] then
    ({ c with currentY := c.currentY - e.defaultLineHeight }, [])
  else
    let isHeading := startsWith ['#', '#', '#', ' '] line
    let isBullet := startsWith ['*', ' '] line
    let isRule := startsWith ['-', '-', '-'] line
    if isHeading then
      wrapAndDraw e e.boldFont (e.size * 1.4) 0
        { c with currentY := c.currentY - e.defaultLineHeight * 0.5 } (substring 4 line)
    else if isRule then
      ({ c with currentY := c.currentY - e.defaultLineHeight * 1.5 },
        [DrawCall.drawLine c.pageNo margin (c.currentY - e.defaultLineHeight / 2)
          (c.currentPage.width - margin) (c.currentY - e.defaultLineHeight / 2) 0.5])
    else if isBullet then
      let r := wrapAndDraw e e.font e.size 15 c (substring 2 line)
      (r.1, DrawCall.drawText c.pageNo bulletGlyph margin c.currentY e.font e.size :: r.2)
    else
      wrapAndDraw e e.font e.size 0 c line

/-- The loop `for (const line of lines)`. -/
def drawLines {F : Type} (e : Env F) : Cursor → List Str → Cursor × List (DrawCall F)
  | c, [] => (c, [])
  | c, line :: rest =>
    let r := processLine e c line
    let r2 := drawLines e r.1 rest
    (r2.1, r.2 ++ r2.2)

/-- The function `drawWrappedText(pdfDoc, page, text, yStart, font, boldFont,
size, color)`: `pdfDoc` is given by `addPage`, the fonts' metric by
`widthOfTextAtSize`.  Returns the final cursor (`page` and `yPos`) and the draw
calls made, in order. -/
def drawWrappedText {F : Type} (addPage : Nat → Page)
    (widthOfTextAtSize : F → Str → ℚ → ℚ) (page : Page) (text : Str) (yStart : ℚ)
    (font boldFont : F) (size : ℚ) : Cursor × List (DrawCall F) :=
  let e : Env F :=
    { addPage := addPage
      widthOfTextAtSize := widthOfTextAtSize
      font := font
      boldFont := boldFont
      size := size
      maxWidth := page.width - 2 * margin }
  drawLines e { pageNo := 0, currentPage := page, currentY := yStart } (split '\n' text)

/-! ## Observers of draw calls and sample collaborators -/

/-- The y coordinates a draw call uses. -/
def DrawCall.ys {F : Type} : DrawCall F → List ℚ
  | .drawText _ _ _ y _ _ => [y]
  | .drawLine _ _ startY _ endY _ => [startY, endY]

/-- The text of a `drawText` call; a `drawLine` call has none. -/
def DrawCall.text {F : Type} : DrawCall F → Str
  | .drawText _ text _ _ _ _ => text
  | .drawLine _ _ _ _ _ _ => []

/-- The non-empty words of a text: the pieces of `t.split(' ')` other than the
empty string. -/
def wordsOf (t : Str) : List Str := (split ' ' t).filter (fun w => !w.isEmpty)

/-- The non-empty words of the texts of a list of draw calls, in order. -/
def drawnWords {F : Type} (calls : List (DrawCall F)) : List Str :=
  calls.flatMap (fun call => wordsOf call.text)

/-- Three of the standard fonts of pdf-lib, as font handles of the examples. -/
inductive StdFont where
  | courier
  | helvetica
  | helveticaBold
deriving DecidableEq, Repr

/-- A sample metric with one advance width per font: a text of `n` characters
at size `s` measures `n * s * 3/5` in Courier and `n * s / 2` in the two
Helvetica faces. -/
def sampleWidth (f : StdFont) (t : Str) (s : ℚ) : ℚ :=
  match f with
  | .courier => (t.length : ℚ) * s * (3 / 5)
  | _ => (t.length : ℚ) * s * (1 / 2)

/-- The page `pdfDoc.addPage()` makes by default in pdf-lib: A4, 595.28 by
841.89. -/
def a4 : Page := { width := 595.28, height := 841.89 }

/-- A sample environment: Helvetica faces at size 10, A4 pages added, wrap
width 500 (a first page of width 600). -/
def sampleEnv : Env StdFont :=
  { addPage := fun _ => a4
    widthOfTextAtSize := sampleWidth
    font := StdFont.helvetica
    boldFont := StdFont.helveticaBold
    size := 10
    maxWidth := 500 }

/-- A sample cursor: on the page passed in, 600 by 800, at y = 750. -/
def sampleCursor : Cursor := { pageNo := 0, currentPage := { width := 600, height := 800 }, currentY := 750 }

/-! ## The call environment, page numbers, check points and line kinds -/

/-- The environment of one call `drawWrappedText(pdfDoc, page, text, yStart,
font, boldFont, size, color)`: `maxWidth` is computed once, from the page passed
in. -/
def callEnv {F : Type} (addPage : Nat → Page) (widthOfTextAtSize : F → Str → ℚ → ℚ)
    (page : Page) (font boldFont : F) (size : ℚ) : Env F :=
  { addPage := addPage
    widthOfTextAtSize := widthOfTextAtSize
    font := font
    boldFont := boldFont
    size := size
    maxWidth := page.width - 2 * margin }

/-- The page with number `n` during a call: the page passed in for `0`, the page
returned by call number `k` of `pdfDoc.addPage()` for `k + 1`. -/
def pageOf (addPage : Nat → Page) (page : Page) : Nat → Page
  | 0 => page
  | k + 1 => addPage k

/-- The x coordinates a draw call uses. -/
def DrawCall.xs {F : Type} : DrawCall F → List ℚ
  | .drawText _ _ x _ _ _ => [x]
  | .drawLine _ startX _ endX _ _ => [startX, endX]

/-- A draw call without its place on the page stack: page number and y
coordinates are set to zero; text, font, size, x coordinates and thickness
stay. -/
def DrawCall.atOrigin {F : Type} : DrawCall F → DrawCall F
  | .drawText _ text x _ font size => .drawText 0 text x 0 font size
  | .drawLine _ startX _ endX _ thickness => .drawLine 0 startX 0 endX 0 thickness

/-- Whether a draw call is a `drawText`. -/
def DrawCall.isText {F : Type} : DrawCall F → Bool
  | .drawText _ _ _ _ _ _ => true
  | .drawLine _ _ _ _ _ _ => false

/-- Two environments that differ at most in the pages `addPage` returns. -/
def SameLayout {F : Type} (e1 e2 : Env F) : Prop :=
  e1.widthOfTextAtSize = e2.widthOfTextAtSize ∧ e1.font = e2.font ∧
    e1.boldFont = e2.boldFont ∧ e1.size = e2.size ∧ e1.maxWidth = e2.maxWidth

/-- The five ways the loop body handles a line. -/
inductive LineKind where
  | blank
  | heading
  | rule
  | bullet
  | plain
deriving DecidableEq, Repr

/-- The kind of a line: the tests of the loop body in their order in the source
(`line.trim() === ''`, then `isHeading`, `isRule`, `isBullet`). -/
def lineKind (line : Str) : LineKind :=
  if trim line = [] then LineKind.blank
  else if startsWith ['#', '#', '#', ' '] line then LineKind.heading
  else if startsWith ['-', '-', '-'] line then LineKind.rule
  else if startsWith ['*', ' '] line then LineKind.bullet
  else LineKind.plain

/-- The cursors at which the word loop evaluates `currentY < margin`: the cursor
right after each forced break, in order. -/
def wrapLoopChecks {F : Type} (e : Env F) (currentFont : F) (currentSize xOffset : ℚ) :
    Cursor → Str → List Str → List Cursor
  | _, _, [] => []
  | c, lineBuffer, word :: rest =>
    if measuredWidth e currentFont currentSize lineBuffer word < e.maxWidth - xOffset then
      wrapLoopChecks e currentFont currentSize xOffset c (testLine lineBuffer word) rest
    else
      { c with currentY := c.currentY - e.defaultLineHeight } ::
        wrapLoopChecks e currentFont currentSize xOffset
          (pageBreak e { c with currentY := c.currentY - e.defaultLineHeight }) word rest

/-- The cursors at which the body of the line loop evaluates `currentY < margin`
for one line: the incoming cursor, then those of the word loop. -/
def processLineChecks {F : Type} (e : Env F) (c0 : Cursor) (line : Str) : List Cursor :=
  let c := pageBreak e c0
  c0 ::
    (if trim line = [] then []
    else if startsWith ['#', '#', '#', ' '] line then
      wrapLoopChecks e e.boldFont (e.size * 1.4) 0
        { c with currentY := c.currentY - e.defaultLineHeight * 0.5 } []
        (split ' ' (substring 4 line))
    else if startsWith ['-', '-', '-'] line then []
    else if startsWith ['*', ' '] line then
      wrapLoopChecks e e.font e.size 15 c [] (split ' ' (substring 2 line))
    else wrapLoopChecks e e.font e.size 0 c [] (split ' ' line))

/-- The cursors at which `currentY < margin` is evaluated while the lines are
processed, in order. -/
def drawLinesChecks {F : Type} (e : Env F) : Cursor → List Str → List Cursor
  | _, [] => []
  | c, line :: rest =>
    processLineChecks e c line ++ drawLinesChecks e (processLine e c line).1 rest

/-- The number of check points at which a page is added: those with
`currentY < margin`. -/
def pagesAddedAt (checks : List Cursor) : Nat :=
  (checks.filter (fun c => decide (c.currentY < margin))).length

/-! ## What a part of a range string names -/

/-- A comma-separated part names the page number `n`: after trimming, either it
has no `'-'` and `parseInt` reads it as `n`, or it has a `'-'`, its first two
`'-'`-separated pieces are read by `parseInt` as `start` and `stop`, and
`start ≤ n ≤ stop`. -/
def partNames (part : Str) (n : Int) : Prop :=
  ('-' ∉ trim part ∧ parseInt (trim part) = some n) ∨
  ('-' ∈ trim part ∧ ∃ start stop : Int,
    ((split '-' (trim part)).map parseInt).head? = some (some start) ∧
    ((split '-' (trim part)).map parseInt).tail.head? = some (some stop) ∧
    start ≤ n ∧ n ≤ stop)

/-! ## The split click handler (`mergeSplitHandler.js`) -/

/-- The outcome of `PDFDocument.load`: it throws with a message, or gives a
document, of which the handler reads `getPageCount()`. -/
inductive LoadResult where
  | failed (message : Str)
  | loaded (pageCount : Int)
deriving DecidableEq, Repr

/-- One PDF put into the zip by `zip.file(name, bytes)`: its name and the
indices of the pages copied into it by `copyPages`, in order. -/
structure ZipEntry where
  name : Str
  pages : List Int
deriving DecidableEq, Repr

/-- What the split click handler leaves: the error text shown in
`splitPdfError`, or the zip behind the download link of `splitPdfResult`. -/
inductive SplitOutcome where
  | failed (errorText : Str)
  | offered (zip : List ZipEntry)
deriving DecidableEq, Repr

/-- The message of the error thrown when no page is selected. -/
def noValidPagesMessage : Str :=
  "No valid pages selected. Check your range and the document's page count.".toList

/-- The text the `catch` block of the split handler shows for an error. -/
def splitErrorText (message : Str) : Str := "An error occurred: ".toList ++ message

/-- The value `sanitizedRange`:
`splitRangeInput.value.trim().replace(/,/g, '_').replace(/\s/g, '')`. -/
def sanitizedRange (rangeValue : Str) : Str :=
  ((trim rangeValue).map (fun ch => if ch = ',' then '_' else ch)).filter
    (fun ch => !isWhiteSpace ch)

/-- The `try` block of the split click handler, on the outcome of loading the
chosen file, the value of the range input and the state of the check box. -/
def splitClick (loadResult : LoadResult) (rangeValue : Str) (individually : Bool) :
    SplitOutcome :=
  match loadResult with
  | LoadResult.failed message => SplitOutcome.failed (splitErrorText message)
  | LoadResult.loaded pageCount =>
    let pageIndices := parseRangeString rangeValue pageCount
    if pageIndices.length = 0 then
      SplitOutcome.failed (splitErrorText noValidPagesMessage)
    else if individually then
      SplitOutcome.offered
        (pageIndices.map (fun pageIndex =>
          { name := "page_".toList ++ (toString (pageIndex + 1)).toList ++ ".pdf".toList
            pages := [pageIndex] }))
    else
      SplitOutcome.offered
        [{ name := "pages_".toList ++ sanitizedRange rangeValue ++ ".pdf".toList
           pages := pageIndices }]

/-! ## The Compress PDF tool (`compressHandler.js`, `utils.js`) -/

/-- The constant `MAX_PDF_SIZE_BYTES`. -/
def MAX_PDF_SIZE_BYTES : Nat := 10 * 1024 * 1024

/-- A file of a file input, as far as the handlers read it. -/
structure PdfFile where
  name : Str
  size : Nat
deriving DecidableEq, Repr

/-- The state the Compress PDF handlers read and write: the variable
`selectedCompressFile`, the text of the file name label, `disabled` of the
button, and whether the result and error boxes are hidden.  The wording of the
error message is left out. -/
structure CompressState where
  selectedCompressFile : Option PdfFile
  fileNameText : Str
  buttonDisabled : Bool
  resultHidden : Bool
  errorHidden : Bool
deriving DecidableEq, Repr

/-- The `change` handler of `compressPdfInput`; `file` is `event.target.files[0]`
(`none` when the event carries no file).  In that case `resetToolUI('compressPdf')`
runs: it writes its text to the element `compressPdfFileName`, which is not the
label `compressFileName` of this handler, so the label keeps its text; the
elements `resetToolUI` addresses are taken to exist. -/
def compressChange (s : CompressState) (file : Option PdfFile) : CompressState :=
  match file with
  | some file =>
    if file.size > MAX_PDF_SIZE_BYTES then
      { s with
        errorHidden := false
        buttonDisabled := true
        fileNameText := "File too large".toList
        selectedCompressFile := none }
    else
      { s with
        selectedCompressFile := some file
        fileNameText := file.name
        buttonDisabled := false
        resultHidden := true
        errorHidden := true }
  | none =>
    { s with
      selectedCompressFile := none
      buttonDisabled := true
      resultHidden := true
      errorHidden := true }

/-- The `click` handler of `compressPdfButton`: `none` when it returns at its
first line (`if (!selectedCompressFile) return;`), else the state it leaves and
the name of the download it offers. -/
def compressClick (s : CompressState) : Option (CompressState × Str) :=
  match s.selectedCompressFile with
  | none => none
  | some file =>
    some
      ({ s with buttonDisabled := false, resultHidden := false, errorHidden := true },
        "compressed_".toList ++ file.name)

/-- The function `updateCompressionRatio`, as the new value of
`currentCompressionRatio`: `selectedLevel` is the value of the checked radio,
`customPercent` the result of `parseFloat` on the custom input (`none` for
NaN).  The `switch` has no default, so another level leaves the ratio as it
is. -/
def updateCompressionRatio (currentCompressionRatio : ℚ) (selectedLevel : Str)
    (customPercent : Option ℚ) : ℚ :=
  if selectedLevel = "low".toList then 0.8
  else if selectedLevel = "medium".toList then 0.5
  else if selectedLevel = "high".toList then 0.2
  else if selectedLevel = "custom".toList then
    let percent : ℚ :=
      match customPercent with
      | none => 50
      | some p => if p < 0 ∨ p > 99 then 50 else p
    (100 - percent) / 100
  else currentCompressionRatio

/-! ## The Image to PDF tool (`imageHandler.js`) -/

/-- An embedded image, as far as the handler reads it. -/
structure Image where
  width : ℚ
  height : ℚ
deriving DecidableEq, Repr

/-- The outcome of `pdfDoc.embedJpg` or `pdfDoc.embedPng` on the bytes of a
file: it throws with a message, or gives the image. -/
inductive EmbedResult where
  | failed (message : Str)
  | embedded (image : Image)
deriving DecidableEq, Repr

/-- A selected file: its name, its `type`, and what embedding its bytes
gives. -/
structure ImageFile where
  name : Str
  type : Str
  embed : EmbedResult
deriving DecidableEq, Repr

/-- A page added to the new document: the file it was made for, its size, and
the options of its one `drawImage` call. -/
structure ImagePage where
  fileName : Str
  pageWidth : ℚ
  pageHeight : ℚ
  x : ℚ
  y : ℚ
  width : ℚ
  height : ℚ
deriving DecidableEq, Repr

/-- What the click handler of the Image to PDF tool leaves: nothing at all when
it returns at its first line, the error text shown, or the pages of the saved
document and the name of the download. -/
inductive ImageOutcome where
  | notStarted
  | failed (errorText : Str)
  | converted (pages : List ImagePage) (download : Str)
deriving DecidableEq, Repr

/-- Whether the loop embeds a file: its type is `image/jpeg` or `image/png`. -/
def isSupportedImage (file : ImageFile) : Bool :=
  file.type = "image/jpeg".toList || file.type = "image/png".toList

/-- The message of the error thrown when the document has no page. -/
def noSupportedImagesMessage : Str := "No supported images were found to convert.".toList

/-- The text the `catch` block of the image handler shows for an error. -/
def imageErrorText (message : Str) : Str :=
  "An error occurred during conversion: ".toList ++ message ++ ". Please try again.".toList

/-- The page made for one embedded image: an A4 page with the image scaled by
`image.scaleToFit(pageWidth - 100, pageHeight - 100)` and centred when the
check box is set, else a page of the image's size with the image at the
origin. -/
def imagePage (scaleToFit : Image → ℚ → ℚ → Image) (fit : Bool) (fileName : Str)
    (image : Image) : ImagePage :=
  if fit then
    let imageDims := scaleToFit image (a4.width - 100) (a4.height - 100)
    { fileName := fileName
      pageWidth := a4.width
      pageHeight := a4.height
      x := (a4.width - imageDims.width) / 2
      y := (a4.height - imageDims.height) / 2
      width := imageDims.width
      height := imageDims.height }
  else
    { fileName := fileName
      pageWidth := image.width
      pageHeight := image.height
      x := 0
      y := 0
      width := image.width
      height := image.height }

/-- The loop `for (const file of selectedImageFiles)`: the pages added, or the
message of the error an embedding throws. -/
def imageLoop (scaleToFit : Image → ℚ → ℚ → Image) (fit : Bool) :
    List ImageFile → Except Str (List ImagePage)
  | [] => Except.ok []
  | file :: rest =>
    if file.type = "image/jpeg".toList ∨ file.type = "image/png".toList then
      match file.embed with
      | EmbedResult.failed message => Except.error message
      | EmbedResult.embedded image =>
        match imageLoop scaleToFit fit rest with
        | Except.error message => Except.error message
        | Except.ok pages => Except.ok (imagePage scaleToFit fit file.name image :: pages)
    else imageLoop scaleToFit fit rest

/-- The `click` handler of `imageToPdfButton` on the variable
`selectedImageFiles` and the state of the check box. -/
def imageClick (scaleToFit : Image → ℚ → ℚ → Image) (fit : Bool)
    (selectedImageFiles : List ImageFile) : ImageOutcome :=
  match selectedImageFiles with
  | [] => ImageOutcome.notStarted
  | first :: _ =>
    match imageLoop scaleToFit fit selectedImageFiles with
    | Except.error message => ImageOutcome.failed (imageErrorText message)
    | Except.ok pages =>
      if pages.length = 0 then ImageOutcome.failed (imageErrorText noSupportedImagesMessage)
      else
        ImageOutcome.converted pages
          ((split '.' first.name).headD [] ++ "_converted.pdf".toList)

/-- A sample `scaleToFit`: the largest size of the image's proportions inside
the given box. -/
def sampleScaleToFit (image : Image) (width height : ℚ) : Image :=
  if image.width * height ≤ image.height * width then
    { width := image.width * height / image.height, height := height }
  else { width := width, height := image.height * width / image.width }

/-! ## `drawWrappedText` with the errors of the font library -/

/-- The page number of a draw call. -/
def DrawCall.page {F : Type} : DrawCall F → Nat
  | .drawText page _ _ _ _ _ => page
  | .drawLine page _ _ _ _ _ => page

/-- When the two pdf-lib calls on a text return: `measures f t` says that
`f.widthOfTextAtSize(t, size)` returns and `draws f t` that
`page.drawText(t, { font: f, ... })` returns; either call throws on a text that
holds a character the font cannot encode.  `drawLine` always returns. -/
structure FontLib (F : Type) where
  measures : F → Str → Bool
  draws : F → Str → Bool

/-- The loop `for (const word of words)` with the errors of the library: `none`
when a call throws, which ends `drawWrappedText` (it has no `try`). -/
def wrapLoopE {F : Type} (lib : FontLib F) (e : Env F) (currentFont : F)
    (currentSize xOffset : ℚ) :
    Cursor → Str → List Str → Option (Cursor × Str × List (DrawCall F))
  | c, lineBuffer, [] => some (c, lineBuffer, [])
  | c, lineBuffer, word :: rest =>
    if lib.measures (if isWordBold word then e.boldFont else currentFont)
        (testLine lineBuffer word) = true then
      if measuredWidth e currentFont currentSize lineBuffer word < e.maxWidth - xOffset then
        wrapLoopE lib e currentFont currentSize xOffset c (testLine lineBuffer word) rest
      else if lib.draws currentFont lineBuffer = true then
        match wrapLoopE lib e currentFont currentSize xOffset
            (pageBreak e { c with currentY := c.currentY - e.defaultLineHeight }) word rest with
        | some r =>
          some (r.1, r.2.1,
            DrawCall.drawText c.pageNo lineBuffer (margin + xOffset) c.currentY currentFont
              currentSize :: r.2.2)
        | none => none
      else none
    else none

/-- The word wrapping of one line with the errors of the library. -/
def wrapAndDrawE {F : Type} (lib : FontLib F) (e : Env F) (currentFont : F)
    (currentSize xOffset : ℚ) (c : Cursor) (textToDraw : Str) :
    Option (Cursor × List (DrawCall F)) :=
  match wrapLoopE lib e currentFont currentSize xOffset c [] (split ' ' textToDraw) with
  | some r =>
    if lib.draws currentFont r.2.1 = true then
      some ({ r.1 with currentY := r.1.currentY - e.defaultLineHeight },
        r.2.2 ++ [DrawCall.drawText r.1.pageNo r.2.1 (margin + xOffset) r.1.currentY
          currentFont currentSize])
    else none
  | none => none

/-- The body of the loop `for (const line of lines)` with the errors of the
library. -/
def processLineE {F : Type} (lib : FontLib F) (e : Env F) (c0 : Cursor) (line : Str) :
    Option (Cursor × List (DrawCall F)) :=
  let c := pageBreak e c0
  if trim line = [] then
    some ({ c with currentY := c.currentY - e.defaultLineHeight }, [])
  else if startsWith ['#', '#', '#', ' '] line then
    wrapAndDrawE lib e e.boldFont (e.size * 1.4) 0
      { c with currentY := c.currentY - e.defaultLineHeight * 0.5 } (substring 4 line)
  else if startsWith ['-', '-', '-'] line then
    some ({ c with currentY := c.currentY - e.defaultLineHeight * 1.5 },
      [DrawCall.drawLine c.pageNo margin (c.currentY - e.defaultLineHeight / 2)
        (c.currentPage.width - margin) (c.currentY - e.defaultLineHeight / 2) 0.5])
  else if startsWith ['*', ' '] line then
    if lib.draws e.font bulletGlyph = true then
      match wrapAndDrawE lib e e.font e.size 15 c (substring 2 line) with
      | some r =>
        some (r.1, DrawCall.drawText c.pageNo bulletGlyph margin c.currentY e.font e.size :: r.2)
      | none => none
    else none
  else
    wrapAndDrawE lib e e.font e.size 0 c line

/-- The loop `for (const line of lines)` with the errors of the library. -/
def drawLinesE {F : Type} (lib : FontLib F) (e : Env F) :
    Cursor → List Str → Option (Cursor × List (DrawCall F))
  | c, [] => some (c, [])
  | c, line :: rest =>
    match processLineE lib e c line with
    | some r =>
      match drawLinesE lib e r.1 rest with
      | some r2 => some (r2.1, r.2 ++ r2.2)
      | none => none
    | none => none

/-- The function `drawWrappedText` with the errors of the library: `none` when
a call of `widthOfTextAtSize` or `drawText` throws, else the final cursor and
the draw calls made. -/
def drawWrappedTextE {F : Type} (lib : FontLib F) (addPage : Nat → Page)
    (widthOfTextAtSize : F → Str → ℚ → ℚ) (page : Page) (text : Str) (yStart : ℚ)
    (font boldFont : F) (size : ℚ) : Option (Cursor × List (DrawCall F)) :=
  drawLinesE lib (callEnv addPage widthOfTextAtSize page font boldFont size)
    { pageNo := 0, currentPage := page, currentY := yStart } (split '\n' text)

/-- A sample library: every font measures the texts made of the printable ASCII
characters and of the three characters of the bullet string, and draws these
texts also when they hold tabs. -/
def sampleLib : FontLib StdFont :=
  { measures := fun _ t =>
      t.all (fun ch => (0x20 ≤ ch.toNat && ch.toNat ≤ 0x7E) || bulletGlyph.contains ch)
    draws := fun _ t =>
      t.all (fun ch =>
        (0x20 ≤ ch.toNat && ch.toNat ≤ 0x7E) || bulletGlyph.contains ch || ch == '\t') }

/-! ## Lemmas on `parseRangeString` -/

/-- What the `Set` of page numbers satisfies throughout the loop: no element
twice, and every element a valid index. -/
def PageSet (maxPage : Int) (l : List Int) : Prop :=
  l.Nodup ∧ ∀ i ∈ l, 0 ≤ i ∧ i < maxPage

theorem foldl_invariant {α β : Type} (P : β → Prop) (f : β → α → β)
    (step : ∀ b a, P b → P (f b a)) : ∀ (l : List α) (b : β), P b → P (l.foldl f b) := by
  intro l
  induction l with
  | nil => intro b hb; simpa using hb
  | cons a l ih => intro b hb; simpa using ih (f b a) (step b a hb)

theorem setAdd_pageSet {maxPage : Int} {l : List Int} {x : Int} (hl : PageSet maxPage l)
    (hx : 0 ≤ x ∧ x < maxPage) : PageSet maxPage (setAdd l x) := by
  unfold setAdd
  split_ifs with hmem
  · exact hl
  · refine ⟨?_, ?_⟩
    · exact List.Nodup.append hl.1 (List.nodup_singleton x) (by simpa using hmem)
    · intro i hi
      rcases List.mem_append.1 hi with h | h
      · exact hl.2 i h
      · have : i = x := by simpa using h
        simpa [this] using hx

theorem rangeLoop_pageSet {maxPage : Int} (start stop : Int) {l : List Int}
    (hl : PageSet maxPage l) : PageSet maxPage (rangeLoop maxPage start stop l) := by
  unfold rangeLoop
  refine foldl_invariant (PageSet maxPage) _ ?_ _ _ hl
  intro b k hb
  dsimp only
  split_ifs with h
  · exact setAdd_pageSet hb ⟨by omega, by omega⟩
  · exact hb

theorem parsePart_pageSet {maxPage : Int} {l : List Int} (part : Str)
    (hl : PageSet maxPage l) : PageSet maxPage (parsePart maxPage l part) := by
  unfold parsePart
  dsimp only
  split_ifs with hdash
  · split
    · split_ifs
      · exact rangeLoop_pageSet _ _ hl
      · exact hl
    · exact hl
  · split
    · split_ifs with h
      · exact setAdd_pageSet hl ⟨by omega, by omega⟩
      · exact hl
    · exact hl

theorem parts_pageSet (rangeString : Str) (maxPage : Int) :
    PageSet maxPage ((split ',' rangeString).foldl (parsePart maxPage) []) :=
  foldl_invariant (PageSet maxPage) _ (fun _ part hb => parsePart_pageSet part hb) _ _
    ⟨List.nodup_nil, by simp⟩

theorem parsePart_number {maxPage : Int} {part : Str} (num : Int) (acc : List Int)
    (hdash : ¬ '-' ∈ trim part) (hnum : parseInt (trim part) = some num)
    (hpos : 0 < num) (hle : num ≤ maxPage) :
    parsePart maxPage acc part = setAdd acc (num - 1) := by
  unfold parsePart
  simp [hdash, hnum, hpos, hle]

theorem parsePart_range {maxPage : Int} {part : Str} (start stop : Int) (acc : List Int)
    (hdash : '-' ∈ trim part)
    (h0 : ((split '-' (trim part)).map parseInt).head? = some (some start))
    (h1 : ((split '-' (trim part)).map parseInt).tail.head? = some (some stop))
    (hle : start ≤ stop) :
    parsePart maxPage acc part = rangeLoop maxPage start stop acc := by
  unfold parsePart
  simp only [hdash, if_true, h0, h1, hle]

/-! ## Lemmas on the string primitives -/

theorem trim_eq_nil_iff (s : Str) : trim s = [] ↔ ∀ ch ∈ s, isWhiteSpace ch = true := by
  unfold trim
  rw [List.reverse_eq_nil_iff, List.dropWhile_eq_nil_iff]
  constructor
  · intro h
    by_cases hd : s.dropWhile isWhiteSpace = []
    · exact List.dropWhile_eq_nil_iff.1 hd
    · exfalso
      have hne := List.head_dropWhile_not isWhiteSpace s hd
      have hmem : (s.dropWhile isWhiteSpace).head hd ∈ (s.dropWhile isWhiteSpace).reverse :=
        List.mem_reverse.2 (List.head_mem hd)
      rw [h _ hmem] at hne
      exact absurd hne (by simp)
  · intro h ch hch
    exact h ch ((List.dropWhile_sublist isWhiteSpace).subset (List.mem_reverse.1 hch))

theorem startsWith_iff (p s : Str) : startsWith p s = true ↔ ∃ t, s = p ++ t := by
  unfold startsWith
  rw [List.isPrefixOf_iff_prefix]
  constructor
  · rintro ⟨t, ht⟩; exact ⟨t, ht.symm⟩
  · rintro ⟨t, ht⟩; exact ⟨t, ht.symm⟩

theorem trim_ne_nil_of_head {ch : Char} {t : Str} (h : isWhiteSpace ch = false) :
    trim (ch :: t) ≠ [] := by
  intro hnil
  have := (trim_eq_nil_iff _).1 hnil ch (List.mem_cons_self _ _)
  rw [h] at this
  exact absurd this (by simp)

theorem split_ne_nil (sep : Char) (s : Str) : split sep s ≠ [] := by
  cases s with
  | nil => simp [split]
  | cons ch cs =>
    unfold split
    split_ifs
    · simp
    · split <;> simp

theorem split_append_sep (sep : Char) (a b : Str) :
    split sep (a ++ sep :: b) = split sep a ++ split sep b := by
  induction a with
  | nil => simp [split]
  | cons ch cs ih =>
    by_cases hc : ch = sep
    · simp [split, hc, ih]
    · have h1 : split sep (ch :: (cs ++ sep :: b)) =
          match split sep (cs ++ sep :: b) with
          | [] => [[ch]]
          | w :: ws => (ch :: w) :: ws := by
        rw [split]; simp [hc]
      have h2 : split sep (ch :: cs) =
          match split sep cs with
          | [] => [[ch]]
          | w :: ws => (ch :: w) :: ws := by
        rw [split]; simp [hc]
      rw [List.cons_append, h1, h2, ih]
      cases hs : split sep cs with
      | nil => exact absurd hs (split_ne_nil sep cs)
      | cons w ws => simp

theorem split_of_not_mem (sep : Char) (w : Str) (h : sep ∉ w) : split sep w = [w] := by
  induction w with
  | nil => simp [split]
  | cons ch cs ih =>
    have hc : ch ≠ sep := fun hEq => h (by simp [hEq])
    have hcs : sep ∉ cs := fun hm => h (List.mem_cons_of_mem _ hm)
    rw [split]
    simp [hc, ih hcs]

theorem not_mem_of_mem_split (sep : Char) (s w : Str) (hw : w ∈ split sep s) : sep ∉ w := by
  induction s generalizing w with
  | nil =>
    have : w = [] := by simpa [split] using hw
    simp [this]
  | cons ch cs ih =>
    by_cases hc : ch = sep
    · have hw2 : w = [] ∨ w ∈ split sep cs := by simpa [split, hc] using hw
      rcases hw2 with h | h
      · simp [h]
      · exact ih w h
    · have h2 : split sep (ch :: cs) =
          match split sep cs with
          | [] => [[ch]]
          | v :: vs => (ch :: v) :: vs := by
        rw [split]; simp [hc]
      rw [h2] at hw
      cases hs : split sep cs with
      | nil => exact absurd hs (split_ne_nil sep cs)
      | cons v vs =>
        rw [hs] at hw
        rcases List.mem_cons.1 hw with h | h
        · have hv := ih v (by rw [hs]; exact List.mem_cons_self _ _)
          rw [h]
          intro hm
          rcases List.mem_cons.1 hm with h3 | h3
          · exact hc h3.symm
          · exact hv h3
        · exact ih w (by rw [hs]; exact List.mem_cons_of_mem _ h)

theorem wordsOf_nil : wordsOf [] = [] := by
  simp [wordsOf, split]

theorem wordsOf_append_space (a b : Str) : wordsOf (a ++ ' ' :: b) = wordsOf a ++ wordsOf b := by
  simp [wordsOf, split_append_sep]

theorem wordsOf_word (w : Str) (h : ' ' ∉ w) :
    wordsOf w = [w].filter (fun v => !v.isEmpty) := by
  simp [wordsOf, split_of_not_mem ' ' w h]

/-! ## Lemmas on the word loop -/

theorem wordsOf_testLine (buf word : Str) (h : ' ' ∉ word) :
    wordsOf (testLine buf word) = wordsOf buf ++ [word].filter (fun v => !v.isEmpty) := by
  unfold testLine
  split_ifs with hb
  · rw [hb, wordsOf_nil, List.nil_append, wordsOf_word word h]
  · rw [wordsOf_append_space, wordsOf_word word h]

theorem drawnWords_cons {F : Type} (call : DrawCall F) (calls : List (DrawCall F)) :
    drawnWords (call :: calls) = wordsOf call.text ++ drawnWords calls := by
  simp [drawnWords]

theorem drawnWords_append {F : Type} (as bs : List (DrawCall F)) :
    drawnWords (as ++ bs) = drawnWords as ++ drawnWords bs := by
  simp [drawnWords]

theorem pageBreak_ge {F : Type} (e : Env F) (hp : ∀ k, 100 ≤ (e.addPage k).height)
    (c : Cursor) : margin ≤ (pageBreak e c).currentY := by
  unfold pageBreak
  split_ifs with h
  · have := hp c.pageNo
    simp only [margin]
    linarith
  · exact not_lt.1 h

theorem pageBreak_of_ge {F : Type} (e : Env F) (c : Cursor) (h : margin ≤ c.currentY) :
    pageBreak e c = c := by
  unfold pageBreak
  rw [if_neg (not_lt.2 h)]

theorem wrapLoop_fit {F : Type} (e : Env F) (f : F) (s x : ℚ) (c : Cursor) (buf word : Str)
    (rest : List Str) (h : measuredWidth e f s buf word < e.maxWidth - x) :
    wrapLoop e f s x c buf (word :: rest) = wrapLoop e f s x c (testLine buf word) rest := by
  rw [wrapLoop, if_pos h]

theorem wrapLoop_break {F : Type} (e : Env F) (f : F) (s x : ℚ) (c : Cursor) (buf word : Str)
    (rest : List Str) (h : ¬ measuredWidth e f s buf word < e.maxWidth - x) :
    wrapLoop e f s x c buf (word :: rest) =
      ((wrapLoop e f s x (pageBreak e { c with currentY := c.currentY - e.defaultLineHeight })
          word rest).1,
        (wrapLoop e f s x (pageBreak e { c with currentY := c.currentY - e.defaultLineHeight })
          word rest).2.1,
        DrawCall.drawText c.pageNo buf (margin + x) c.currentY f s ::
          (wrapLoop e f s x (pageBreak e { c with currentY := c.currentY - e.defaultLineHeight })
            word rest).2.2) := by
  rw [wrapLoop, if_neg h]

theorem wrapLoop_shape {F : Type} (e : Env F) (f : F) (s x : ℚ) (words : List Str) :
    ∀ (c : Cursor) (buf : Str), ∀ call ∈ (wrapLoop e f s x c buf words).2.2,
      ∃ pg t y, call = DrawCall.drawText pg t (margin + x) y f s := by
  induction words with
  | nil => intro c buf call h; simp [wrapLoop] at h
  | cons word rest ih =>
    intro c buf call h
    by_cases hw : measuredWidth e f s buf word < e.maxWidth - x
    · rw [wrapLoop_fit e f s x c buf word rest hw] at h
      exact ih _ _ call h
    · rw [wrapLoop_break e f s x c buf word rest hw] at h
      rcases List.mem_cons.1 h with h1 | h1
      · exact ⟨_, _, _, h1⟩
      · exact ih _ _ call h1

theorem wrapLoop_first {F : Type} (e : Env F) (f : F) (s x : ℚ) (c : Cursor)
    (words : List Str) :
    ∀ buf : Str,
      ((wrapLoop e f s x c buf words).2.2 = [] ∧ (wrapLoop e f s x c buf words).1 = c) ∨
      ∃ t rest, (wrapLoop e f s x c buf words).2.2 =
        DrawCall.drawText c.pageNo t (margin + x) c.currentY f s :: rest := by
  induction words with
  | nil => intro buf; left; simp [wrapLoop]
  | cons word rest ih =>
    intro buf
    by_cases hw : measuredWidth e f s buf word < e.maxWidth - x
    · rw [wrapLoop_fit e f s x c buf word rest hw]
      exact ih _
    · rw [wrapLoop_break e f s x c buf word rest hw]
      right
      exact ⟨_, _, rfl⟩

theorem wrapLoop_words {F : Type} (e : Env F) (f : F) (s x : ℚ) (words : List Str) :
    ∀ (c : Cursor) (buf : Str), (∀ w ∈ words, ' ' ∉ w) →
      drawnWords (wrapLoop e f s x c buf words).2.2 ++ wordsOf (wrapLoop e f s x c buf words).2.1
        = wordsOf buf ++ words.filter (fun v => !v.isEmpty) := by
  induction words with
  | nil => intro c buf _; simp [wrapLoop, drawnWords]
  | cons word rest ih =>
    intro c buf hws
    have hword : ' ' ∉ word := hws word (List.mem_cons_self _ _)
    have hrest : ∀ w ∈ rest, ' ' ∉ w := fun w hw => hws w (List.mem_cons_of_mem _ hw)
    have hfilter : (word :: rest).filter (fun v => !v.isEmpty) =
        [word].filter (fun v => !v.isEmpty) ++ rest.filter (fun v => !v.isEmpty) := by
      rw [← List.filter_append]; rfl
    by_cases hw : measuredWidth e f s buf word < e.maxWidth - x
    · rw [wrapLoop_fit e f s x c buf word rest hw, ih _ _ hrest, wordsOf_testLine buf word hword,
        hfilter, List.append_assoc]
    · rw [wrapLoop_break e f s x c buf word rest hw]
      dsimp only
      rw [drawnWords_cons, List.append_assoc, ih _ _ hrest, wordsOf_word word hword, hfilter]
      rfl

theorem wrapLoop_ys {F : Type} (e : Env F) (hp : ∀ k, 100 ≤ (e.addPage k).height) (f : F)
    (s x b : ℚ) (hb : b ≤ margin) (words : List Str) :
    ∀ (c : Cursor) (buf : Str), b ≤ c.currentY →
      (∀ call ∈ (wrapLoop e f s x c buf words).2.2, ∀ y ∈ call.ys, b ≤ y) ∧
        b ≤ (wrapLoop e f s x c buf words).1.currentY := by
  induction words with
  | nil => intro c buf hc; simpa [wrapLoop] using hc
  | cons word rest ih =>
    intro c buf hc
    by_cases hw : measuredWidth e f s buf word < e.maxWidth - x
    · rw [wrapLoop_fit e f s x c buf word rest hw]
      exact ih _ _ hc
    · rw [wrapLoop_break e f s x c buf word rest hw]
      have hnext := ih (pageBreak e { c with currentY := c.currentY - e.defaultLineHeight }) word
        (le_trans hb (pageBreak_ge e hp _))
      refine ⟨?_, hnext.2⟩
      intro call hcall y hy
      rcases List.mem_cons.1 hcall with h1 | h1
      · rw [h1] at hy
        have : y = c.currentY := by simpa [DrawCall.ys] using hy
        rw [this]; exact hc
      · exact hnext.1 call h1 y hy

/-! ## Lemmas on one line and on the loop over the lines -/

theorem wrapAndDraw_shape {F : Type} (e : Env F) (f : F) (s x : ℚ) (c : Cursor) (t : Str) :
    ∀ call ∈ (wrapAndDraw e f s x c t).2,
      ∃ pg u y, call = DrawCall.drawText pg u (margin + x) y f s := by
  intro call h
  unfold wrapAndDraw at h
  rcases List.mem_append.1 h with h1 | h1
  · exact wrapLoop_shape e f s x _ _ _ call h1
  · exact ⟨_, _, _, List.mem_singleton.1 h1⟩

theorem wrapAndDraw_first {F : Type} (e : Env F) (f : F) (s x : ℚ) (c : Cursor) (t : Str) :
    ∃ u rest, (wrapAndDraw e f s x c t).2 =
      DrawCall.drawText c.pageNo u (margin + x) c.currentY f s :: rest := by
  unfold wrapAndDraw
  rcases wrapLoop_first e f s x c (split ' ' t) [] with ⟨h1, h2⟩ | ⟨u, rest, h⟩
  · refine ⟨(wrapLoop e f s x c [] (split ' ' t)).2.1, [], ?_⟩
    simp only [h1, h2, List.nil_append]
  · refine ⟨u, rest ++ [DrawCall.drawText (wrapLoop e f s x c [] (split ' ' t)).1.pageNo
      (wrapLoop e f s x c [] (split ' ' t)).2.1 (margin + x)
      (wrapLoop e f s x c [] (split ' ' t)).1.currentY f s], ?_⟩
    simp only [h, List.cons_append]

theorem wrapAndDraw_words {F : Type} (e : Env F) (f : F) (s x : ℚ) (c : Cursor) (t : Str) :
    drawnWords (wrapAndDraw e f s x c t).2 = wordsOf t := by
  have h := wrapLoop_words e f s x (split ' ' t) c [] (fun w hw => not_mem_of_mem_split ' ' t w hw)
  unfold wrapAndDraw
  rw [drawnWords_append]
  simp only [drawnWords, List.flatMap_cons, List.flatMap_nil, List.append_nil, DrawCall.text]
  rw [wordsOf_nil, List.nil_append] at h
  exact h

theorem wrapAndDraw_ys {F : Type} (e : Env F) (hp : ∀ k, 100 ≤ (e.addPage k).height) (f : F)
    (s x b : ℚ) (hb : b ≤ margin) (c : Cursor) (hc : b ≤ c.currentY) (t : Str) :
    ∀ call ∈ (wrapAndDraw e f s x c t).2, ∀ y ∈ call.ys, b ≤ y := by
  have h := wrapLoop_ys e hp f s x b hb (split ' ' t) c [] hc
  intro call hcall y hy
  unfold wrapAndDraw at hcall
  rcases List.mem_append.1 hcall with h1 | h1
  · exact h.1 call h1 y hy
  · rw [List.mem_singleton.1 h1] at hy
    have : y = (wrapLoop e f s x c [] (split ' ' t)).1.currentY := by
      simpa [DrawCall.ys] using hy
    rw [this]; exact h.2

theorem processLine_blank {F : Type} (e : Env F) (c : Cursor) (line : Str)
    (h : trim line = []) :
    processLine e c line =
      ({ pageBreak e c with currentY := (pageBreak e c).currentY - e.defaultLineHeight }, []) := by
  unfold processLine
  simp only [h, if_true]

theorem processLine_heading {F : Type} (e : Env F) (c : Cursor) (line : Str)
    (h : startsWith ['#', '#', '#', ' '] line = true) :
    processLine e c line =
      wrapAndDraw e e.boldFont (e.size * 1.4) 0
        { pageBreak e c with
          currentY := (pageBreak e c).currentY - e.defaultLineHeight * 0.5 }
        (substring 4 line) := by
  obtain ⟨t, rfl⟩ := (startsWith_iff _ _).1 h
  have hne : trim ('#' :: '#' :: '#' :: ' ' :: t) ≠ [] := trim_ne_nil_of_head (by decide)
  have h2 : startsWith ['#', '#', '#', ' '] ('#' :: '#' :: '#' :: ' ' :: t) = true := by
    simpa using h
  unfold processLine
  simp only [List.cons_append, List.nil_append, hne, if_false, h2, if_true]

theorem processLine_rule {F : Type} (e : Env F) (c : Cursor) (line : Str)
    (h : startsWith ['-', '-', '-'] line = true) :
    processLine e c line =
      ({ pageBreak e c with
          currentY := (pageBreak e c).currentY - e.defaultLineHeight * 1.5 },
        [DrawCall.drawLine (pageBreak e c).pageNo margin
          ((pageBreak e c).currentY - e.defaultLineHeight / 2)
          ((pageBreak e c).currentPage.width - margin)
          ((pageBreak e c).currentY - e.defaultLineHeight / 2) 0.5]) := by
  obtain ⟨t, rfl⟩ := (startsWith_iff _ _).1 h
  have hne : trim ('-' :: '-' :: '-' :: t) ≠ [] := trim_ne_nil_of_head (by decide)
  have hh : startsWith ['#', '#', '#', ' '] ('-' :: '-' :: '-' :: t) = false := by
    simp [startsWith, List.isPrefixOf]
  have h2 : startsWith ['-', '-', '-'] ('-' :: '-' :: '-' :: t) = true := by simpa using h
  unfold processLine
  simp only [List.cons_append, List.nil_append, hne, if_false, hh, h2, if_true,
    Bool.false_eq_true]

theorem processLine_bullet {F : Type} (e : Env F) (c : Cursor) (line : Str)
    (h : startsWith ['*', ' '] line = true) :
    processLine e c line =
      ((wrapAndDraw e e.font e.size 15 (pageBreak e c) (substring 2 line)).1,
        DrawCall.drawText (pageBreak e c).pageNo bulletGlyph margin (pageBreak e c).currentY
          e.font e.size :: (wrapAndDraw e e.font e.size 15 (pageBreak e c) (substring 2 line)).2) := by
  obtain ⟨t, rfl⟩ := (startsWith_iff _ _).1 h
  have hne : trim ('*' :: ' ' :: t) ≠ [] := trim_ne_nil_of_head (by decide)
  have hh : startsWith ['#', '#', '#', ' '] ('*' :: ' ' :: t) = false := by
    simp [startsWith, List.isPrefixOf]
  have hr : startsWith ['-', '-', '-'] ('*' :: ' ' :: t) = false := by
    simp [startsWith, List.isPrefixOf]
  have h2 : startsWith ['*', ' '] ('*' :: ' ' :: t) = true := by simpa using h
  unfold processLine
  simp only [List.cons_append, List.nil_append, hne, if_false, hh, hr, h2, if_true,
    Bool.false_eq_true]

theorem processLine_ys_low {F : Type} (e : Env F) (hp : ∀ k, 100 ≤ (e.addPage k).height)
    (hs : 0 ≤ e.size) (c : Cursor) (line : Str) :
    ∀ call ∈ (processLine e c line).2, ∀ y ∈ call.ys, margin - e.size * 1.2 * 0.5 ≤ y := by
  have hc := pageBreak_ge e hp c
  have hlow : margin - e.size * 1.2 * 0.5 ≤ margin := by linarith
  unfold processLine
  dsimp only
  split_ifs with h1 h2 h3 h4
  · intro call hcall; simp at hcall
  · exact wrapAndDraw_ys e hp _ _ _ _ hlow _
      (by simp only [Env.defaultLineHeight]; linarith) _
  · intro call hcall y hy
    rw [List.mem_singleton.1 hcall] at hy
    simp only [DrawCall.ys, Env.defaultLineHeight, List.mem_cons, List.mem_singleton,
      List.not_mem_nil, or_false, or_self] at hy
    rw [hy]; linarith
  · intro call hcall y hy
    rcases List.mem_cons.1 hcall with h | h
    · rw [h] at hy
      have : y = (pageBreak e c).currentY := by simpa [DrawCall.ys] using hy
      rw [this]; linarith
    · exact wrapAndDraw_ys e hp _ _ _ _ hlow _ (by linarith) _ call h y hy
  · exact wrapAndDraw_ys e hp _ _ _ _ hlow _ (by linarith) _

theorem processLine_ys_plain {F : Type} (e : Env F) (hp : ∀ k, 100 ≤ (e.addPage k).height)
    (c : Cursor) (line : Str) (hh : startsWith ['#', '#', '#', ' '] line = false)
    (hr : startsWith ['-', '-', '-'] line = false) :
    ∀ call ∈ (processLine e c line).2, ∀ y ∈ call.ys, margin ≤ y := by
  have hc := pageBreak_ge e hp c
  unfold processLine
  simp only [hh, hr, Bool.false_eq_true, if_false]
  split_ifs with h1 h4
  · intro call hcall; simp at hcall
  · intro call hcall y hy
    rcases List.mem_cons.1 hcall with h | h
    · rw [h] at hy
      have : y = (pageBreak e c).currentY := by simpa [DrawCall.ys] using hy
      rw [this]; exact hc
    · exact wrapAndDraw_ys e hp _ _ _ _ le_rfl _ hc _ call h y hy
  · exact wrapAndDraw_ys e hp _ _ _ _ le_rfl _ hc _

theorem drawLines_forall {F : Type} (e : Env F) (P : DrawCall F → Prop) (lines : List Str)
    (h : ∀ c, ∀ line ∈ lines, ∀ call ∈ (processLine e c line).2, P call) :
    ∀ c, ∀ call ∈ (drawLines e c lines).2, P call := by
  induction lines with
  | nil => intro c call hcall; simp [drawLines] at hcall
  | cons line rest ih =>
    intro c call hcall
    rw [drawLines] at hcall
    rcases List.mem_append.1 hcall with h1 | h1
    · exact h c line (List.mem_cons_self _ _) call h1
    · exact ih (fun c2 l hl => h c2 l (List.mem_cons_of_mem _ hl)) _ call h1

/-- Where the width bound of the word wrap holds: when no word of the line is
wrapped in `**` (or the bold font is the font of the line), every text the word
loop draws, and the buffer it leaves for the last draw, either has no space (it
is at most one word) or measures below the wrap width in the font of the line. -/
theorem wrapLoop_width_bound {F : Type} (e : Env F) (f : F) (s x : ℚ) (words : List Str)
    (hbold : ∀ w ∈ words, isWordBold w = false ∨ e.boldFont = f)
    (hws : ∀ w ∈ words, ' ' ∉ w) :
    ∀ (c : Cursor) (buf : Str),
      (' ' ∉ buf ∨ e.widthOfTextAtSize f buf s < e.maxWidth - x) →
      (∀ call ∈ (wrapLoop e f s x c buf words).2.2,
        ' ' ∉ call.text ∨ e.widthOfTextAtSize f call.text s < e.maxWidth - x) ∧
      (' ' ∉ (wrapLoop e f s x c buf words).2.1 ∨
        e.widthOfTextAtSize f (wrapLoop e f s x c buf words).2.1 s < e.maxWidth - x) := by
  induction words with
  | nil => intro c buf hbuf; simpa [wrapLoop] using hbuf
  | cons word rest ih =>
    intro c buf hbuf
    have ih2 := ih (fun w hw => hbold w (List.mem_cons_of_mem _ hw))
      (fun w hw => hws w (List.mem_cons_of_mem _ hw))
    by_cases hw : measuredWidth e f s buf word < e.maxWidth - x
    · rw [wrapLoop_fit e f s x c buf word rest hw]
      refine ih2 c _ (Or.inr ?_)
      have hfont : (if isWordBold word = true then e.boldFont else f) = f := by
        rcases hbold word (List.mem_cons_self _ _) with h | h
        · simp [h]
        · simp [h]
      simpa [measuredWidth, hfont] using hw
    · rw [wrapLoop_break e f s x c buf word rest hw]
      have hnext := ih2 (pageBreak e { c with currentY := c.currentY - e.defaultLineHeight })
        word (Or.inl (hws word (List.mem_cons_self _ _)))
      refine ⟨?_, hnext.2⟩
      intro call hcall
      rcases List.mem_cons.1 hcall with h1 | h1
      · rw [h1]; exact hbuf
      · exact hnext.1 call h1

theorem processLine_plain {F : Type} (e : Env F) (c : Cursor) (line : Str)
    (hne : trim line ≠ []) (hh : startsWith ['#', '#', '#', ' '] line = false)
    (hr : startsWith ['-', '-', '-'] line = false) (hb : startsWith ['*', ' '] line = false) :
    processLine e c line = wrapAndDraw e e.font e.size 0 (pageBreak e c) line := by
  unfold processLine
  simp only [hne, hh, hr, hb, Bool.false_eq_true, if_false]

/-! ## Theorems on `parseRangeString` -/

/-- C4: the array returned by `parseRangeString` is in strictly ascending
order, so no index occurs twice, whatever the string names and in whatever
order. -/
theorem parseRangeString_strictly_ascending (rangeString : Str) (maxPage : Int) :
    List.Sorted (· < ·) (parseRangeString rangeString maxPage) ∧
      (parseRangeString rangeString maxPage).Nodup := by
  have hnd : (parseRangeString rangeString maxPage).Nodup :=
    (List.perm_insertionSort (· ≤ ·) _).nodup_iff.2 (parts_pageSet rangeString maxPage).1
  have hle : List.Sorted (· ≤ ·) (parseRangeString rangeString maxPage) :=
    List.sorted_insertionSort (· ≤ ·) _
  exact ⟨hle.lt_of_le hnd, hnd⟩

/-- C5: every element of the array returned by `parseRangeString` is a valid
0-based page index, `0 ≤ i < maxPage`; a number that is zero, negative or above
`maxPage` yields no element. -/
theorem parseRangeString_index_in_bounds (rangeString : Str) (maxPage : Int) (i : Int)
    (hi : i ∈ parseRangeString rangeString maxPage) : 0 ≤ i ∧ i < maxPage :=
  (parts_pageSet rangeString maxPage).2 i
    ((List.perm_insertionSort (· ≤ ·) _).mem_iff.1 hi)

theorem parseRangeString_index_in_bounds_witness :
    (7 : Int) ∈ parseRangeString "0, 9, 3-1, 1, 3-5, 8".toList 8 ∧ ((0 : Int) ≤ 7 ∧ (7 : Int) < 8) :=
  ⟨by decide, parseRangeString_index_in_bounds "0, 9, 3-1, 1, 3-5, 8".toList 8 7 (by decide)⟩

/-- C6: for every `maxPage ≥ 8`, `parseRangeString("1, 3-5, 8", maxPage)` is
`[0, 2, 3, 4, 7]`: single numbers and inclusive ranges, comma-separated with
optional spaces, become 0-based indices. -/
theorem parseRangeString_docstring_example (maxPage : Int) (h : 8 ≤ maxPage) :
    parseRangeString "1, 3-5, 8".toList maxPage = [0, 2, 3, 4, 7] := by
  have hsplit : split ',' "1, 3-5, 8".toList = ["1".toList, " 3-5".toList, " 8".toList] := by
    decide
  have p1 : parsePart maxPage [] "1".toList = [0] := by
    rw [parsePart_number 1 [] (by decide) (by decide) (by decide) (by omega)]
    decide
  have p2 : parsePart maxPage [0] " 3-5".toList = [0, 2, 3, 4] := by
    rw [parsePart_range 3 5 [0] (by decide) (by decide) (by decide)
      (by decide)]
    have h3 : (0 : Int) < 3 ∧ (3 : Int) ≤ maxPage := ⟨by decide, by omega⟩
    have h4 : (0 : Int) < 4 ∧ (4 : Int) ≤ maxPage := ⟨by decide, by omega⟩
    have h5 : (0 : Int) < 5 ∧ (5 : Int) ≤ maxPage := ⟨by decide, by omega⟩
    have hr : List.range (5 - 3 + 1 : Int).toNat = [0, 1, 2] := by decide
    unfold rangeLoop
    rw [hr]
    simp only [List.foldl]
    norm_num [h3, h4, h5, setAdd]
  have p3 : parsePart maxPage [0, 2, 3, 4] " 8".toList = [0, 2, 3, 4, 7] := by
    rw [parsePart_number 8 _ (by decide) (by decide) (by decide) h]
    decide
  unfold parseRangeString
  rw [hsplit]
  simp only [List.foldl, p1, p2, p3]
  decide

theorem parseRangeString_docstring_example_witness :
    (8 : Int) ≤ 12 ∧ parseRangeString "1, 3-5, 8".toList 12 = [0, 2, 3, 4, 7] :=
  ⟨by decide, parseRangeString_docstring_example 12 (by decide)⟩

/-! ## Theorems on `drawWrappedText` -/

/-- C1, as stated, fails: for the text `"### Hi"` started at y = 50 on a page
600 by 800 with base size 10, no page is added (50 is not below the margin) and
the heading is drawn at y = 44, below the margin 50. -/
theorem draw_below_margin_counterexample :
    ¬ (∀ call ∈ (drawWrappedText (fun _ => a4) sampleWidth { width := 600, height := 800 }
          "### Hi".toList 50 StdFont.helvetica StdFont.helveticaBold 10).2,
        ∀ y ∈ call.ys, margin ≤ y) := by
  decide!

/-- C1, amended: when every page added is at least 100 high, (a) for a size
that is not negative every `drawText` and `drawLine` call of `drawWrappedText`
has its y coordinates at least `margin - 0.5 * lineHeight`, the half line height
by which a heading is lowered and a rule is offset after the page check; and
(b) for a text without heading and rule lines every call has y at least
`margin`. -/
theorem drawWrappedText_y_lower_bound {F : Type} (addPage : Nat → Page)
    (widthOfTextAtSize : F → Str → ℚ → ℚ) (page : Page) (text : Str) (yStart : ℚ)
    (font boldFont : F) (size : ℚ) (hp : ∀ k, 100 ≤ (addPage k).height) :
    (0 ≤ size →
      ∀ call ∈ (drawWrappedText addPage widthOfTextAtSize page text yStart font boldFont size).2,
        ∀ y ∈ call.ys, margin - size * 1.2 * 0.5 ≤ y) ∧
    ((∀ line ∈ split '\n' text,
        startsWith ['#', '#', '#', ' '] line = false ∧ startsWith ['-', '-', '-'] line = false) →
      ∀ call ∈ (drawWrappedText addPage widthOfTextAtSize page text yStart font boldFont size).2,
        ∀ y ∈ call.ys, margin ≤ y) := by
  constructor
  · intro hs
    unfold drawWrappedText
    exact drawLines_forall _ (fun call => ∀ y ∈ call.ys, margin - size * 1.2 * 0.5 ≤ y) _
      (fun c line _ => processLine_ys_low _ hp hs c line) _
  · intro hlines
    unfold drawWrappedText
    exact drawLines_forall _ (fun call => ∀ y ∈ call.ys, margin ≤ y) _
      (fun c line hl => processLine_ys_plain _ hp c line (hlines line hl).1 (hlines line hl).2) _

theorem drawWrappedText_y_lower_bound_witness :
    (∀ _k : Nat, (100 : ℚ) ≤ a4.height) ∧
    (∀ call ∈ (drawWrappedText (fun _ => a4) sampleWidth { width := 600, height := 800 }
        "### Hi\n---".toList 50 StdFont.helvetica StdFont.helveticaBold 10).2,
      ∀ y ∈ call.ys, margin - 10 * 1.2 * 0.5 ≤ y) ∧
    (∀ call ∈ (drawWrappedText (fun _ => a4) sampleWidth { width := 600, height := 800 }
        "Hi\n* there".toList 50 StdFont.helvetica StdFont.helveticaBold 10).2,
      ∀ y ∈ call.ys, margin ≤ y) :=
  ⟨fun _ => by decide!,
    (drawWrappedText_y_lower_bound (fun _ => a4) sampleWidth { width := 600, height := 800 }
      "### Hi\n---".toList 50 StdFont.helvetica StdFont.helveticaBold 10
      (fun _ => (by decide! : (100 : ℚ) ≤ a4.height))).1 (by decide!),
    (drawWrappedText_y_lower_bound (fun _ => a4) sampleWidth { width := 600, height := 800 }
      "Hi\n* there".toList 50 StdFont.helvetica StdFont.helveticaBold 10
      (fun _ => (by decide! : (100 : ℚ) ≤ a4.height))).2 (by decide)⟩

/-- C2, at the failing input: with `font` Courier and `boldFont` Helvetica-Bold
at size 10 on a page of width 160 (wrap width 60), the line `"aaaaa **b**"` is
accepted because its last word is marked bold and the whole line measures 55 in
the bold font; it is drawn as one text in Courier, where it measures 66, which
is not below 60, and it is not a single word. -/
theorem wrapped_line_exceeds_width :
    (drawWrappedText (fun _ => a4) sampleWidth { width := 160, height := 800 }
        "aaaaa **b**".toList 750 StdFont.courier StdFont.helveticaBold 10).2
      = [DrawCall.drawText 0 "aaaaa **b**".toList 50 750 StdFont.courier 10] ∧
    sampleWidth StdFont.helveticaBold "aaaaa **b**".toList 10 = 55 ∧
    sampleWidth StdFont.courier "aaaaa **b**".toList 10 = 66 ∧
    ¬ (sampleWidth StdFont.courier "aaaaa **b**".toList 10 < (160 - 2 * margin) - 0) ∧
    ' ' ∈ "aaaaa **b**".toList := by
  decide!

/-- C3, at the failing input: for the line `"a **b** c"`, whatever the metric
and the cursor, every call is a `drawText` in the regular font `font` at the base
size, and the words drawn are `a`, `**b**`, `c`, the markers still there; on a
page 600 wide with the sample metric it is the single call
`drawText("a **b** c")` in Helvetica. -/
theorem bold_word_drawn_regular_with_markers {F : Type} (e : Env F) (c : Cursor) :
    (∀ call ∈ (processLine e c "a **b** c".toList).2,
      ∃ pg t y, call = DrawCall.drawText pg t margin y e.font e.size) ∧
    drawnWords (processLine e c "a **b** c".toList).2
      = ["a".toList, "**b**".toList, "c".toList] ∧
    (drawWrappedText (fun _ => a4) sampleWidth { width := 600, height := 800 }
        "a **b** c".toList 750 StdFont.helvetica StdFont.helveticaBold 10).2
      = [DrawCall.drawText 0 "a **b** c".toList 50 750 StdFont.helvetica 10] := by
  have hpl := processLine_plain e c "a **b** c".toList (by decide) (by decide) (by decide)
    (by decide)
  refine ⟨?_, ?_, by decide!⟩
  · intro call hcall
    rw [hpl] at hcall
    obtain ⟨pg, t, y, h⟩ := wrapAndDraw_shape e e.font e.size 0 _ _ call hcall
    exact ⟨pg, t, y, by rw [h, add_zero]⟩
  · rw [hpl, wrapAndDraw_words]
    decide

/-- C7: for a line that begins with `"### "`, every call of the line is a
`drawText` in the bold font at 1.4 times the base size at x = margin; the first
one is at the cursor of the page check lowered by `0.5 * 1.2 * size`; the words
drawn are the words of the line without its first four characters; and for
`"### Title"` the text drawn is `"Title"` (next to at most an empty string). -/
theorem heading_line {F : Type} (e : Env F) (c : Cursor) :
    (∀ line, startsWith ['#', '#', '#', ' '] line = true →
      (∀ call ∈ (processLine e c line).2,
        ∃ pg t y, call = DrawCall.drawText pg t margin y e.boldFont (1.4 * e.size)) ∧
      (∃ t rest, (processLine e c line).2 =
        DrawCall.drawText (pageBreak e c).pageNo t margin
          ((pageBreak e c).currentY - 0.5 * 1.2 * e.size) e.boldFont (1.4 * e.size) :: rest) ∧
      drawnWords (processLine e c line).2 = wordsOf (substring 4 line)) ∧
    ((processLine e c "### Title".toList).2.map DrawCall.text).filter (fun t => !t.isEmpty)
      = ["Title".toList] := by
  have hsize : e.size * 1.4 = 1.4 * e.size := mul_comm _ _
  have hlow : e.defaultLineHeight * 0.5 = 0.5 * 1.2 * e.size := by
    simp only [Env.defaultLineHeight]; ring
  constructor
  · intro line h
    rw [processLine_heading e c line h, hsize, hlow]
    refine ⟨?_, ?_, wrapAndDraw_words _ _ _ _ _ _⟩
    · intro call hcall
      obtain ⟨pg, t, y, hc⟩ := wrapAndDraw_shape _ _ _ _ _ _ call hcall
      exact ⟨pg, t, y, by rw [hc, add_zero]⟩
    · obtain ⟨t, rest, hc⟩ := wrapAndDraw_first e e.boldFont (1.4 * e.size) 0
        { pageBreak e c with currentY := (pageBreak e c).currentY - 0.5 * 1.2 * e.size }
        (substring 4 line)
      exact ⟨t, rest, by rw [hc, add_zero]⟩
  · rw [processLine_heading e c _ (by decide)]
    have hsub : substring 4 "### Title".toList = ['T', 'i', 't', 'l', 'e'] := by decide
    have hsp : split ' ' ['T', 'i', 't', 'l', 'e'] = [['T', 'i', 't', 'l', 'e']] := by decide
    have hres : "Title".toList = ['T', 'i', 't', 'l', 'e'] := by decide
    rw [hsub, hres]
    unfold wrapAndDraw
    rw [hsp]
    by_cases hw : measuredWidth e e.boldFont (e.size * 1.4) [] ['T', 'i', 't', 'l', 'e']
        < e.maxWidth - 0
    · rw [wrapLoop_fit _ _ _ _ _ _ _ _ hw]
      simp [wrapLoop, testLine, DrawCall.text]
    · rw [wrapLoop_break _ _ _ _ _ _ _ _ hw]
      simp [wrapLoop, DrawCall.text]

theorem heading_line_witness :
    startsWith ['#', '#', '#', ' '] "### Hi there".toList = true ∧
    drawnWords (processLine sampleEnv sampleCursor "### Hi there".toList).2
      = wordsOf (substring 4 "### Hi there".toList) :=
  ⟨by decide, ((heading_line sampleEnv sampleCursor).1 "### Hi there".toList (by decide)).2.2⟩

/-- C8: for a line that begins with `"---"`, handled at the cursor `y` left by
the page check, the only call is one `drawLine` from `(50, y - lineHeight / 2)`
to `(pageWidth - 50, y - lineHeight / 2)` with thickness 0.5, where
`lineHeight = 1.2 * size` and `pageWidth` is the current page's width; no text
is drawn and the cursor is lowered by `1.5 * lineHeight`. -/
theorem rule_line {F : Type} (e : Env F) (c : Cursor) (line : Str)
    (h : startsWith ['-', '-', '-'] line = true) :
    processLine e c line =
      ({ pageBreak e c with currentY := (pageBreak e c).currentY - 1.5 * (1.2 * e.size) },
        [DrawCall.drawLine (pageBreak e c).pageNo 50
          ((pageBreak e c).currentY - 1.2 * e.size / 2)
          ((pageBreak e c).currentPage.width - 50)
          ((pageBreak e c).currentY - 1.2 * e.size / 2) 0.5]) := by
  have h1 : e.defaultLineHeight * 1.5 = 1.5 * (1.2 * e.size) := by
    simp only [Env.defaultLineHeight]; ring
  have h2 : e.defaultLineHeight / 2 = 1.2 * e.size / 2 := by
    simp only [Env.defaultLineHeight]; ring
  rw [processLine_rule e c line h, h1, h2]
  rfl

theorem rule_line_witness :
    startsWith ['-', '-', '-'] "----".toList = true ∧
    processLine sampleEnv sampleCursor "----".toList =
      ({ pageBreak sampleEnv sampleCursor with
          currentY := (pageBreak sampleEnv sampleCursor).currentY - 1.5 * (1.2 * sampleEnv.size) },
        [DrawCall.drawLine (pageBreak sampleEnv sampleCursor).pageNo 50
          ((pageBreak sampleEnv sampleCursor).currentY - 1.2 * sampleEnv.size / 2)
          ((pageBreak sampleEnv sampleCursor).currentPage.width - 50)
          ((pageBreak sampleEnv sampleCursor).currentY - 1.2 * sampleEnv.size / 2) 0.5]) :=
  ⟨by decide, rule_line sampleEnv sampleCursor "----".toList (by decide)⟩

/-- C9: for a line that begins with `"* "`, the first call draws the bullet
glyph at x = margin = 50 at the cursor of the page check, in the regular font
and base size; every later call of the line is a `drawText` at x = margin + 15
in the regular font, the first of them at the same y; the words drawn are those
of the line without its first two characters; for `"* Hello world"` every text
call is at x = 65 and the words are `Hello`, `world`. -/
theorem bullet_line {F : Type} (e : Env F) (c : Cursor) :
    (∀ line, startsWith ['*', ' '] line = true →
      ∃ rest, (processLine e c line).2 =
          DrawCall.drawText (pageBreak e c).pageNo bulletGlyph margin (pageBreak e c).currentY
            e.font e.size :: rest ∧
        (∃ t more, rest = DrawCall.drawText (pageBreak e c).pageNo t (margin + 15)
            (pageBreak e c).currentY e.font e.size :: more) ∧
        (∀ call ∈ rest, ∃ pg t y, call = DrawCall.drawText pg t (margin + 15) y e.font e.size) ∧
        drawnWords rest = wordsOf (substring 2 line)) ∧
    ((∀ call ∈ (processLine e c "* Hello world".toList).2.tail,
        ∃ pg t y, call = DrawCall.drawText pg t 65 y e.font e.size) ∧
      drawnWords (processLine e c "* Hello world".toList).2.tail
        = ["Hello".toList, "world".toList]) := by
  constructor
  · intro line h
    rw [processLine_bullet e c line h]
    exact ⟨_, rfl, wrapAndDraw_first _ _ _ _ _ _, wrapAndDraw_shape _ _ _ _ _ _,
      wrapAndDraw_words _ _ _ _ _ _⟩
  · rw [processLine_bullet e c _ (by decide)]
    have h65 : margin + 15 = 65 := by simp only [margin]; norm_num
    refine ⟨?_, ?_⟩
    · intro call hcall
      obtain ⟨pg, t, y, hc⟩ := wrapAndDraw_shape _ _ _ _ _ _ call hcall
      exact ⟨pg, t, y, by rw [hc, h65]⟩
    · rw [List.tail_cons, wrapAndDraw_words]
      decide

theorem bullet_line_witness :
    startsWith ['*', ' '] "* one two".toList = true ∧
    ∃ rest, (processLine sampleEnv sampleCursor "* one two".toList).2 =
        DrawCall.drawText (pageBreak sampleEnv sampleCursor).pageNo bulletGlyph margin
          (pageBreak sampleEnv sampleCursor).currentY sampleEnv.font sampleEnv.size :: rest ∧
      (∃ t more, rest = DrawCall.drawText (pageBreak sampleEnv sampleCursor).pageNo t (margin + 15)
          (pageBreak sampleEnv sampleCursor).currentY sampleEnv.font sampleEnv.size :: more) ∧
      (∀ call ∈ rest,
        ∃ pg t y, call = DrawCall.drawText pg t (margin + 15) y sampleEnv.font sampleEnv.size) ∧
      drawnWords rest = wordsOf (substring 2 "* one two".toList) :=
  ⟨by decide, (bullet_line sampleEnv sampleCursor).1 "* one two".toList (by decide)⟩

/-- C10: for a line that is empty after trimming, the line makes no draw call
and leaves the cursor of the page check lowered by one line height, `1.2 * size`;
when the line is reached at a y not below the margin, that is the incoming
cursor, on the same page, lowered by exactly `1.2 * size`. -/
theorem blank_line {F : Type} (e : Env F) (c : Cursor) (line : Str) (h : trim line = []) :
    (processLine e c line).2 = [] ∧
    (processLine e c line).1 =
      { pageBreak e c with currentY := (pageBreak e c).currentY - 1.2 * e.size } ∧
    (margin ≤ c.currentY →
      (processLine e c line).1 = { c with currentY := c.currentY - 1.2 * e.size }) := by
  have hlh : e.defaultLineHeight = 1.2 * e.size := by
    simp only [Env.defaultLineHeight]; ring
  rw [processLine_blank e c line h, hlh]
  refine ⟨rfl, rfl, ?_⟩
  intro hc
  rw [pageBreak_of_ge e c hc]

theorem blank_line_witness :
    trim " \t ".toList = [] ∧ margin ≤ sampleCursor.currentY ∧
    (processLine sampleEnv sampleCursor " \t ".toList).2 = [] ∧
    (processLine sampleEnv sampleCursor " \t ".toList).1 =
      { sampleCursor with currentY := sampleCursor.currentY - 1.2 * sampleEnv.size } :=
  ⟨by decide, by decide!,
    (blank_line sampleEnv sampleCursor " \t ".toList (by decide)).1,
    (blank_line sampleEnv sampleCursor " \t ".toList (by decide)).2.2 (by decide!)⟩

/-! ## Lemmas on the returned cursor and on the size of the output -/

theorem drawWrappedText_eq_drawLines {F : Type} (addPage : Nat → Page)
    (widthOfTextAtSize : F → Str → ℚ → ℚ) (page : Page) (text : Str) (yStart : ℚ)
    (font boldFont : F) (size : ℚ) :
    drawWrappedText addPage widthOfTextAtSize page text yStart font boldFont size =
      drawLines (callEnv addPage widthOfTextAtSize page font boldFont size)
        { pageNo := 0, currentPage := page, currentY := yStart } (split '\n' text) :=
  rfl

theorem drawLines_append {F : Type} (e : Env F) (l1 l2 : List Str) :
    ∀ c : Cursor, drawLines e c (l1 ++ l2) =
      ((drawLines e (drawLines e c l1).1 l2).1,
        (drawLines e c l1).2 ++ (drawLines e (drawLines e c l1).1 l2).2) := by
  induction l1 with
  | nil => intro c; simp [drawLines]
  | cons line rest ih =>
    intro c
    rw [List.cons_append, drawLines, drawLines, ih]
    simp only [List.append_assoc]

theorem drawLines_singleton {F : Type} (e : Env F) (c : Cursor) (line : Str) :
    drawLines e c [line] = processLine e c line := by
  simp [drawLines]

theorem pageBreak_pageOf {F : Type} (e : Env F) (page : Page) (c : Cursor)
    (h : c.currentPage = pageOf e.addPage page c.pageNo) :
    (pageBreak e c).currentPage = pageOf e.addPage page (pageBreak e c).pageNo := by
  unfold pageBreak
  split_ifs
  · rfl
  · exact h

theorem wrapLoop_pageOf {F : Type} (e : Env F) (page : Page) (f : F) (s x : ℚ)
    (words : List Str) :
    ∀ (c : Cursor) (buf : Str), c.currentPage = pageOf e.addPage page c.pageNo →
      (wrapLoop e f s x c buf words).1.currentPage =
        pageOf e.addPage page (wrapLoop e f s x c buf words).1.pageNo := by
  induction words with
  | nil => intro c buf h; simpa [wrapLoop] using h
  | cons word rest ih =>
    intro c buf h
    by_cases hw : measuredWidth e f s buf word < e.maxWidth - x
    · rw [wrapLoop_fit e f s x c buf word rest hw]
      exact ih _ _ h
    · rw [wrapLoop_break e f s x c buf word rest hw]
      exact ih _ _ (pageBreak_pageOf e page _ h)

theorem wrapAndDraw_pageOf {F : Type} (e : Env F) (page : Page) (f : F) (s x : ℚ)
    (c : Cursor) (t : Str) (h : c.currentPage = pageOf e.addPage page c.pageNo) :
    (wrapAndDraw e f s x c t).1.currentPage =
      pageOf e.addPage page (wrapAndDraw e f s x c t).1.pageNo := by
  unfold wrapAndDraw
  exact wrapLoop_pageOf e page f s x _ c [] h

theorem processLine_pageOf {F : Type} (e : Env F) (page : Page) (c : Cursor) (line : Str)
    (h : c.currentPage = pageOf e.addPage page c.pageNo) :
    (processLine e c line).1.currentPage =
      pageOf e.addPage page (processLine e c line).1.pageNo := by
  have hb := pageBreak_pageOf e page c h
  unfold processLine
  dsimp only
  split_ifs
  · exact hb
  · exact wrapAndDraw_pageOf e page _ _ _ _ _ hb
  · exact hb
  · exact wrapAndDraw_pageOf e page _ _ _ _ _ hb
  · exact wrapAndDraw_pageOf e page _ _ _ _ _ hb

theorem drawLines_pageOf {F : Type} (e : Env F) (page : Page) (lines : List Str) :
    ∀ c : Cursor, c.currentPage = pageOf e.addPage page c.pageNo →
      (drawLines e c lines).1.currentPage =
        pageOf e.addPage page (drawLines e c lines).1.pageNo := by
  induction lines with
  | nil => intro c h; simpa [drawLines] using h
  | cons line rest ih =>
    intro c h
    rw [drawLines]
    exact ih _ (processLine_pageOf e page c line h)

theorem split_length (sep : Char) (s : Str) : (split sep s).length = s.count sep + 1 := by
  induction s with
  | nil => simp [split]
  | cons ch cs ih =>
    by_cases hc : ch = sep
    · subst hc
      simp [split, ih]
    · have h2 : split sep (ch :: cs) =
          match split sep cs with
          | [] => [[ch]]
          | w :: ws => (ch :: w) :: ws := by
        rw [split]; simp [hc]
      rw [h2]
      cases hs : split sep cs with
      | nil => exact absurd hs (split_ne_nil sep cs)
      | cons w ws =>
        rw [hs] at ih
        simp only [List.length_cons] at ih ⊢
        rw [List.count_cons_of_ne (Ne.symm hc)]
        exact ih

theorem split_length_drop_le (sep : Char) (n : Nat) (s : Str) :
    (split sep (s.drop n)).length ≤ (split sep s).length := by
  rw [split_length, split_length]
  exact Nat.succ_le_succ ((List.drop_sublist n s).count_le sep)

theorem pageBreak_pageNo_le {F : Type} (e : Env F) (c : Cursor) :
    (pageBreak e c).pageNo ≤ c.pageNo + 1 := by
  unfold pageBreak
  split_ifs <;> simp

theorem wrapLoop_size {F : Type} (e : Env F) (f : F) (s x : ℚ) (words : List Str) :
    ∀ (c : Cursor) (buf : Str),
      (wrapLoop e f s x c buf words).2.2.length ≤ words.length ∧
        (wrapLoop e f s x c buf words).1.pageNo ≤ c.pageNo + words.length := by
  induction words with
  | nil => intro c buf; simp [wrapLoop]
  | cons word rest ih =>
    intro c buf
    by_cases hw : measuredWidth e f s buf word < e.maxWidth - x
    · rw [wrapLoop_fit e f s x c buf word rest hw]
      have := ih c (testLine buf word)
      simp only [List.length_cons]
      omega
    · rw [wrapLoop_break e f s x c buf word rest hw]
      have h1 := ih (pageBreak e { c with currentY := c.currentY - e.defaultLineHeight }) word
      have h2 := pageBreak_pageNo_le e { c with currentY := c.currentY - e.defaultLineHeight }
      simp only [List.length_cons] at h1 h2 ⊢
      omega

theorem wrapAndDraw_size {F : Type} (e : Env F) (f : F) (s x : ℚ) (c : Cursor) (t : Str) :
    (wrapAndDraw e f s x c t).2.length ≤ (split ' ' t).length + 1 ∧
      (wrapAndDraw e f s x c t).1.pageNo ≤ c.pageNo + (split ' ' t).length := by
  have h := wrapLoop_size e f s x (split ' ' t) c []
  unfold wrapAndDraw
  simp only [List.length_append, List.length_singleton]
  omega

theorem processLine_size {F : Type} (e : Env F) (c : Cursor) (line : Str) :
    (processLine e c line).2.length ≤ (split ' ' line).length + 2 ∧
      (processLine e c line).1.pageNo ≤ c.pageNo + ((split ' ' line).length + 1) := by
  have hb := pageBreak_pageNo_le e c
  have h4 : (split ' ' (substring 4 line)).length ≤ (split ' ' line).length :=
    split_length_drop_le ' ' 4 line
  have h2 : (split ' ' (substring 2 line)).length ≤ (split ' ' line).length :=
    split_length_drop_le ' ' 2 line
  unfold processLine
  dsimp only
  split_ifs
  · simp only [List.length_nil]; omega
  · have h := wrapAndDraw_size e e.boldFont (e.size * 1.4) 0
      { pageBreak e c with currentY := (pageBreak e c).currentY - e.defaultLineHeight * 0.5 }
      (substring 4 line)
    dsimp only at h
    omega
  · simp only [List.length_singleton]; omega
  · have h := wrapAndDraw_size e e.font e.size 15 (pageBreak e c) (substring 2 line)
    simp only [List.length_cons]
    omega
  · have h := wrapAndDraw_size e e.font e.size 0 (pageBreak e c) line
    omega

theorem drawLines_size {F : Type} (e : Env F) (lines : List Str) :
    ∀ c : Cursor,
      (drawLines e c lines).2.length ≤ (lines.map (fun l => (split ' ' l).length + 2)).sum ∧
        (drawLines e c lines).1.pageNo ≤
          c.pageNo + (lines.map (fun l => (split ' ' l).length + 1)).sum := by
  induction lines with
  | nil => intro c; simp [drawLines]
  | cons line rest ih =>
    intro c
    have h1 := processLine_size e c line
    have h2 := ih (processLine e c line).1
    rw [drawLines]
    simp only [List.length_append, List.map_cons, List.sum_cons]
    omega

theorem intercalate_split (sep : Char) (s : Str) :
    List.intercalate [sep] (split sep s) = s := by
  induction s with
  | nil => simp [split, List.intercalate]
  | cons ch cs ih =>
    cases hs : split sep cs with
    | nil => exact absurd hs (split_ne_nil sep cs)
    | cons w ws =>
      rw [hs] at ih
      by_cases hc : ch = sep
      · subst hc
        have h2 : split ch (ch :: cs) = [] :: w :: ws := by
          rw [split]; simp [hs]
        rw [h2]
        simpa [List.intercalate, List.intersperse] using ih
      · have h2 : split sep (ch :: cs) = (ch :: w) :: ws := by
          rw [split]; simp [hc, hs]
        rw [h2]
        cases ws with
        | nil => simpa [List.intercalate, List.intersperse] using ih
        | cons v vs => simpa [List.intercalate, List.intersperse] using ih

theorem isWordBold_of_one_sided (word : Str)
    (h : startsWith ['*', '*'] word ≠ endsWith ['*', '*'] word) : isWordBold word = false := by
  unfold isWordBold
  cases h1 : startsWith ['*', '*'] word <;> cases h2 : endsWith ['*', '*'] word <;> simp_all

theorem ne_nil_of_one_sided (word : Str)
    (h : startsWith ['*', '*'] word ≠ endsWith ['*', '*'] word) : word ≠ [] := by
  intro hnil
  subst hnil
  exact h (by decide)

/-! ## Theorems on `drawWrappedText`, continued -/

/-- C16: the word wrap is greedy with a strict bound: with `testLine` the word
alone for an empty buffer and else buffer, one space, word, a word whose
`testLine` measures strictly below `maxWidth - xOffset` is taken into the buffer
and nothing is drawn; otherwise (also at exactly that width) the buffer is drawn
at `(margin + xOffset, y)`, y drops by one line height, the page check runs, and
the word starts the next buffer.  The measure is taken in the bold font when the
word is wrapped in `**` and in the font of the line otherwise. -/
theorem greedy_wrap_step {F : Type} (e : Env F) (f : F) (s x : ℚ) (c : Cursor)
    (buf word : Str) (rest : List Str) :
    testLine buf word = (if buf = [] then word else buf ++ [' '] ++ word) ∧
    measuredWidth e f s buf word =
      e.widthOfTextAtSize (if isWordBold word = true then e.boldFont else f)
        (testLine buf word) s ∧
    (measuredWidth e f s buf word < e.maxWidth - x →
      wrapLoop e f s x c buf (word :: rest) = wrapLoop e f s x c (testLine buf word) rest) ∧
    (e.maxWidth - x ≤ measuredWidth e f s buf word →
      wrapLoop e f s x c buf (word :: rest) =
        ((wrapLoop e f s x (pageBreak e { c with currentY := c.currentY - 1.2 * e.size })
            word rest).1,
          (wrapLoop e f s x (pageBreak e { c with currentY := c.currentY - 1.2 * e.size })
            word rest).2.1,
          DrawCall.drawText c.pageNo buf (margin + x) c.currentY f s ::
            (wrapLoop e f s x (pageBreak e { c with currentY := c.currentY - 1.2 * e.size })
              word rest).2.2)) := by
  have hlh : e.defaultLineHeight = 1.2 * e.size := by
    simp only [Env.defaultLineHeight]; ring
  refine ⟨?_, rfl, fun h => wrapLoop_fit e f s x c buf word rest h, fun h => ?_⟩
  · unfold testLine
    split_ifs <;> simp
  · rw [wrapLoop_break e f s x c buf word rest (not_lt.2 h), hlh]

theorem greedy_wrap_step_witness :
    (measuredWidth sampleEnv StdFont.helvetica 10 "Hello".toList "world".toList < sampleEnv.maxWidth - 0 ∧
      wrapLoop sampleEnv StdFont.helvetica 10 0 sampleCursor "Hello".toList ["world".toList] =
        wrapLoop sampleEnv StdFont.helvetica 10 0 sampleCursor
          (testLine "Hello".toList "world".toList) []) ∧
    (sampleEnv.maxWidth - 445 ≤ measuredWidth sampleEnv StdFont.helvetica 10 "Hello".toList "world".toList ∧
      (wrapLoop sampleEnv StdFont.helvetica 10 445 sampleCursor "Hello".toList ["world".toList]).2.1
        = "world".toList) :=
  ⟨⟨by decide!,
      (greedy_wrap_step sampleEnv StdFont.helvetica 10 0 sampleCursor "Hello".toList
        "world".toList []).2.2.1 (by decide!)⟩,
    ⟨by decide!, by
      rw [(greedy_wrap_step sampleEnv StdFont.helvetica 10 445 sampleCursor "Hello".toList
        "world".toList []).2.2.2 (by decide!)]
      rfl⟩⟩

/-- C19: a word with `**` on one side only is not taken as bold: it is measured
inside `testLine` with its literal text in the font of the line, it is among the
words drawn, markers included, and every call of the line uses the font of the
line. -/
theorem one_sided_marker_literal {F : Type} (e : Env F) (f : F) (s x : ℚ) (c : Cursor)
    (t word : Str) (hw : word ∈ split ' ' t)
    (hone : startsWith ['*', '*'] word ≠ endsWith ['*', '*'] word) :
    (∀ buf, measuredWidth e f s buf word = e.widthOfTextAtSize f (testLine buf word) s) ∧
    word ∈ drawnWords (wrapAndDraw e f s x c t).2 ∧
    (∀ call ∈ (wrapAndDraw e f s x c t).2,
      ∃ pg u y, call = DrawCall.drawText pg u (margin + x) y f s) := by
  refine ⟨?_, ?_, wrapAndDraw_shape e f s x c t⟩
  · intro buf
    simp [measuredWidth, isWordBold_of_one_sided word hone]
  · rw [wrapAndDraw_words]
    unfold wordsOf
    rw [List.mem_filter]
    refine ⟨hw, ?_⟩
    have := ne_nil_of_one_sided word hone
    cases word with
    | nil => exact absurd rfl this
    | cons a l => rfl

theorem one_sided_marker_literal_witness :
    "**bold".toList ∈ split ' ' "a **bold b".toList ∧
    startsWith ['*', '*'] "**bold".toList ≠ endsWith ['*', '*'] "**bold".toList ∧
    "**bold".toList ∈
      drawnWords (wrapAndDraw sampleEnv StdFont.helvetica 10 0 sampleCursor "a **bold b".toList).2 :=
  ⟨by decide, by decide,
    (one_sided_marker_literal sampleEnv StdFont.helvetica 10 0 sampleCursor "a **bold b".toList
      "**bold".toList (by decide) (by decide)).2.1⟩

/-- C20: there is a single-line input for which one call adds two pages while
wrapping that line: on a first page 100 wide (wrap width 0) every word is
rejected; at size 72 the line height is 86.4, so from y = 100 the first break
goes below the margin, and nine breaks later the A4 page added is used up. -/
theorem single_line_adds_two_pages :
    ∃ (page : Page) (text : Str) (yStart size : ℚ),
      '\n' ∉ text ∧
      2 ≤ (drawWrappedText (fun _ => a4) sampleWidth page text yStart StdFont.helvetica
        StdFont.helveticaBold size).1.pageNo :=
  ⟨{ width := 100, height := 841.89 }, "a b c d e f g h i j k".toList, 100, 72, by decide,
    by decide!⟩

/-! ## Lemmas on what a line's handling depends on -/

theorem processLine_by_kind {F : Type} (e : Env F) (c : Cursor) (line : Str) :
    processLine e c line =
      match lineKind line with
      | LineKind.blank =>
        ({ pageBreak e c with currentY := (pageBreak e c).currentY - e.defaultLineHeight }, [])
      | LineKind.heading =>
        wrapAndDraw e e.boldFont (e.size * 1.4) 0
          { pageBreak e c with
            currentY := (pageBreak e c).currentY - e.defaultLineHeight * 0.5 }
          (substring 4 line)
      | LineKind.rule =>
        ({ pageBreak e c with
            currentY := (pageBreak e c).currentY - e.defaultLineHeight * 1.5 },
          [DrawCall.drawLine (pageBreak e c).pageNo margin
            ((pageBreak e c).currentY - e.defaultLineHeight / 2)
            ((pageBreak e c).currentPage.width - margin)
            ((pageBreak e c).currentY - e.defaultLineHeight / 2) 0.5])
      | LineKind.bullet =>
        ((wrapAndDraw e e.font e.size 15 (pageBreak e c) (substring 2 line)).1,
          DrawCall.drawText (pageBreak e c).pageNo bulletGlyph margin (pageBreak e c).currentY
            e.font e.size :: (wrapAndDraw e e.font e.size 15 (pageBreak e c) (substring 2 line)).2)
      | LineKind.plain => wrapAndDraw e e.font e.size 0 (pageBreak e c) line := by
  unfold processLine lineKind
  dsimp only
  split_ifs <;> rfl

theorem measuredWidth_sameLayout {F : Type} {e1 e2 : Env F} (h : SameLayout e1 e2) (f : F)
    (s : ℚ) (buf word : Str) : measuredWidth e1 f s buf word = measuredWidth e2 f s buf word := by
  obtain ⟨hw, _, hb, _, _⟩ := h
  simp only [measuredWidth, hw, hb]

theorem wrapLoop_atOrigin {F : Type} {e1 e2 : Env F} (h : SameLayout e1 e2) (f : F) (s x : ℚ)
    (words : List Str) :
    ∀ (c1 c2 : Cursor) (buf : Str),
      (wrapLoop e1 f s x c1 buf words).2.2.map DrawCall.atOrigin =
          (wrapLoop e2 f s x c2 buf words).2.2.map DrawCall.atOrigin ∧
        (wrapLoop e1 f s x c1 buf words).2.1 = (wrapLoop e2 f s x c2 buf words).2.1 := by
  induction words with
  | nil => intro c1 c2 buf; simp [wrapLoop]
  | cons word rest ih =>
    intro c1 c2 buf
    have hm := measuredWidth_sameLayout h f s buf word
    have hmax : e1.maxWidth = e2.maxWidth := h.2.2.2.2
    by_cases hw : measuredWidth e1 f s buf word < e1.maxWidth - x
    · rw [wrapLoop_fit e1 f s x c1 buf word rest hw,
        wrapLoop_fit e2 f s x c2 buf word rest (by rw [← hm, ← hmax]; exact hw)]
      exact ih _ _ _
    · rw [wrapLoop_break e1 f s x c1 buf word rest hw,
        wrapLoop_break e2 f s x c2 buf word rest (by rw [← hm, ← hmax]; exact hw)]
      have hnext := ih (pageBreak e1 { c1 with currentY := c1.currentY - e1.defaultLineHeight })
        (pageBreak e2 { c2 with currentY := c2.currentY - e2.defaultLineHeight }) word
      exact ⟨by simp only [List.map_cons, DrawCall.atOrigin, hnext.1], hnext.2⟩

theorem wrapAndDraw_atOrigin {F : Type} {e1 e2 : Env F} (h : SameLayout e1 e2) (f : F)
    (s x : ℚ) (c1 c2 : Cursor) (t : Str) :
    (wrapAndDraw e1 f s x c1 t).2.map DrawCall.atOrigin =
      (wrapAndDraw e2 f s x c2 t).2.map DrawCall.atOrigin := by
  have hl := wrapLoop_atOrigin h f s x (split ' ' t) c1 c2 []
  unfold wrapAndDraw
  simp only [List.map_append, List.map_cons, List.map_nil, DrawCall.atOrigin, hl.1, hl.2]

theorem processLine_atOrigin {F : Type} {e1 e2 : Env F} (h : SameLayout e1 e2) (c1 c2 : Cursor)
    (line : Str)
    (hrule : lineKind line = LineKind.rule →
      (pageBreak e1 c1).currentPage.width = (pageBreak e2 c2).currentPage.width) :
    (processLine e1 c1 line).2.map DrawCall.atOrigin =
      (processLine e2 c2 line).2.map DrawCall.atOrigin := by
  obtain ⟨_, hf, hb, hs, _⟩ := id h
  rw [processLine_by_kind e1 c1 line, processLine_by_kind e2 c2 line]
  cases hk : lineKind line with
  | blank => rfl
  | heading =>
    dsimp only
    rw [hb, hs]
    exact wrapAndDraw_atOrigin h _ _ _ _ _ _
  | rule =>
    dsimp only
    simp only [List.map_cons, List.map_nil, DrawCall.atOrigin, hrule hk]
  | bullet =>
    dsimp only
    rw [hf, hs]
    simp only [List.map_cons, DrawCall.atOrigin, wrapAndDraw_atOrigin h e2.font e2.size 15
      (pageBreak e1 c1) (pageBreak e2 c2) (substring 2 line)]
  | plain =>
    dsimp only
    rw [hf, hs]
    exact wrapAndDraw_atOrigin h _ _ _ _ _ _

theorem processLine_text_atOrigin {F : Type} {e1 e2 : Env F} (h : SameLayout e1 e2)
    (c1 c2 : Cursor) (line : Str) :
    ((processLine e1 c1 line).2.map DrawCall.atOrigin).filter DrawCall.isText =
      ((processLine e2 c2 line).2.map DrawCall.atOrigin).filter DrawCall.isText := by
  by_cases hk : lineKind line = LineKind.rule
  · rw [processLine_by_kind e1 c1 line, processLine_by_kind e2 c2 line, hk]
    rfl
  · rw [processLine_atOrigin h c1 c2 line (fun hr => absurd hr hk)]

theorem drawLines_text_atOrigin {F : Type} {e1 e2 : Env F} (h : SameLayout e1 e2)
    (lines : List Str) :
    ∀ c1 c2 : Cursor,
      ((drawLines e1 c1 lines).2.map DrawCall.atOrigin).filter DrawCall.isText =
        ((drawLines e2 c2 lines).2.map DrawCall.atOrigin).filter DrawCall.isText := by
  induction lines with
  | nil => intro c1 c2; simp [drawLines]
  | cons line rest ih =>
    intro c1 c2
    rw [drawLines, drawLines]
    simp only [List.map_append, List.filter_append]
    rw [processLine_text_atOrigin h c1 c2 line, ih]

/-! ## Lemmas on the check points -/

theorem pagesAddedAt_cons (c : Cursor) (l : List Cursor) :
    pagesAddedAt (c :: l) = (if c.currentY < margin then 1 else 0) + pagesAddedAt l := by
  unfold pagesAddedAt
  by_cases h : c.currentY < margin
  · simp [List.filter_cons, h]; omega
  · simp [List.filter_cons, h]

theorem pagesAddedAt_append (l1 l2 : List Cursor) :
    pagesAddedAt (l1 ++ l2) = pagesAddedAt l1 + pagesAddedAt l2 := by
  simp [pagesAddedAt]

theorem pagesAddedAt_nil : pagesAddedAt [] = 0 := rfl

theorem pageBreak_pageNo {F : Type} (e : Env F) (c : Cursor) :
    (pageBreak e c).pageNo = c.pageNo + (if c.currentY < margin then 1 else 0) := by
  unfold pageBreak
  split_ifs <;> rfl

theorem wrapLoop_pages {F : Type} (e : Env F) (f : F) (s x : ℚ) (words : List Str) :
    ∀ (c : Cursor) (buf : Str),
      (wrapLoop e f s x c buf words).1.pageNo =
        c.pageNo + pagesAddedAt (wrapLoopChecks e f s x c buf words) := by
  induction words with
  | nil => intro c buf; simp [wrapLoop, wrapLoopChecks, pagesAddedAt_nil]
  | cons word rest ih =>
    intro c buf
    by_cases hw : measuredWidth e f s buf word < e.maxWidth - x
    · rw [wrapLoop_fit e f s x c buf word rest hw, wrapLoopChecks, if_pos hw]
      exact ih _ _
    · rw [wrapLoop_break e f s x c buf word rest hw, wrapLoopChecks, if_neg hw,
        pagesAddedAt_cons]
      dsimp only
      rw [ih, pageBreak_pageNo]
      dsimp only
      omega

theorem wrapAndDraw_pages {F : Type} (e : Env F) (f : F) (s x : ℚ) (c : Cursor) (t : Str) :
    (wrapAndDraw e f s x c t).1.pageNo =
      c.pageNo + pagesAddedAt (wrapLoopChecks e f s x c [] (split ' ' t)) := by
  unfold wrapAndDraw
  exact wrapLoop_pages e f s x _ c []

theorem processLine_pages {F : Type} (e : Env F) (c : Cursor) (line : Str) :
    (processLine e c line).1.pageNo = c.pageNo + pagesAddedAt (processLineChecks e c line) := by
  have hb : (pageBreak e c).pageNo = c.pageNo + pagesAddedAt [c] := by
    rw [pagesAddedAt_cons, pagesAddedAt_nil, pageBreak_pageNo, Nat.add_zero]
  have hcons : ∀ X : List Cursor, pagesAddedAt (c :: X) = pagesAddedAt [c] + pagesAddedAt X :=
    fun X => pagesAddedAt_append [c] X
  unfold processLine processLineChecks
  dsimp only
  rw [hcons]
  generalize pagesAddedAt [c] = k at hb ⊢
  split_ifs
  · show (pageBreak e c).pageNo = _
    rw [hb, pagesAddedAt_nil]; omega
  · rw [wrapAndDraw_pages]
    show (pageBreak e c).pageNo + _ = _
    rw [hb]; omega
  · show (pageBreak e c).pageNo = _
    rw [hb, pagesAddedAt_nil]; omega
  · show (wrapAndDraw e e.font e.size 15 (pageBreak e c) (substring 2 line)).1.pageNo = _
    rw [wrapAndDraw_pages, hb]; omega
  · rw [wrapAndDraw_pages, hb]; omega

theorem drawLines_pages {F : Type} (e : Env F) (lines : List Str) :
    ∀ c : Cursor,
      (drawLines e c lines).1.pageNo = c.pageNo + pagesAddedAt (drawLinesChecks e c lines) := by
  induction lines with
  | nil => intro c; simp [drawLines, drawLinesChecks, pagesAddedAt_nil]
  | cons line rest ih =>
    intro c
    rw [drawLines, drawLinesChecks, pagesAddedAt_append]
    dsimp only
    rw [ih, processLine_pages]
    omega

/-! ## Theorems on the line kinds, the check points and the words -/

/-- C14, as stated, fails: a rule line `"---"` reached at y = 750 on the page
passed in (600 wide) ends its segment at x = 550; reached at y = 40 on the same
page, the page check first adds an A4 page and the segment ends at x = 545.28,
so the x coordinates of its draw differ with the cursor state. -/
theorem rule_end_depends_on_page :
    ¬ ((processLine sampleEnv sampleCursor "---".toList).2.map DrawCall.atOrigin =
      (processLine sampleEnv ⟨0, ⟨600, 800⟩, 40⟩ "---".toList).2.map DrawCall.atOrigin) := by
  decide!

/-- C14, amended: how a line is handled is fixed by its kind, and the kind is a
function of the line alone (blank after trimming, else its leading characters).
For any two cursor states the `drawText` calls of the line have the same texts,
fonts, sizes and x coordinates, in the same order; all draws of the line agree
in these when the line is not a rule, and for a rule when the two current pages
have the same width (a rule's segment ends at the current page's width minus
50). -/
theorem line_handling_by_line_only {F : Type} (e : Env F) (c1 c2 : Cursor) (line : Str) :
    (processLine e c1 line =
      match lineKind line with
      | LineKind.blank =>
        ({ pageBreak e c1 with currentY := (pageBreak e c1).currentY - e.defaultLineHeight }, [])
      | LineKind.heading =>
        wrapAndDraw e e.boldFont (e.size * 1.4) 0
          { pageBreak e c1 with
            currentY := (pageBreak e c1).currentY - e.defaultLineHeight * 0.5 }
          (substring 4 line)
      | LineKind.rule =>
        ({ pageBreak e c1 with
            currentY := (pageBreak e c1).currentY - e.defaultLineHeight * 1.5 },
          [DrawCall.drawLine (pageBreak e c1).pageNo margin
            ((pageBreak e c1).currentY - e.defaultLineHeight / 2)
            ((pageBreak e c1).currentPage.width - margin)
            ((pageBreak e c1).currentY - e.defaultLineHeight / 2) 0.5])
      | LineKind.bullet =>
        ((wrapAndDraw e e.font e.size 15 (pageBreak e c1) (substring 2 line)).1,
          DrawCall.drawText (pageBreak e c1).pageNo bulletGlyph margin (pageBreak e c1).currentY
            e.font e.size ::
            (wrapAndDraw e e.font e.size 15 (pageBreak e c1) (substring 2 line)).2)
      | LineKind.plain => wrapAndDraw e e.font e.size 0 (pageBreak e c1) line) ∧
    (((processLine e c1 line).2.map DrawCall.atOrigin).filter DrawCall.isText =
      ((processLine e c2 line).2.map DrawCall.atOrigin).filter DrawCall.isText) ∧
    (lineKind line ≠ LineKind.rule →
      (processLine e c1 line).2.map DrawCall.atOrigin =
        (processLine e c2 line).2.map DrawCall.atOrigin) ∧
    ((pageBreak e c1).currentPage.width = (pageBreak e c2).currentPage.width →
      (processLine e c1 line).2.map DrawCall.atOrigin =
        (processLine e c2 line).2.map DrawCall.atOrigin) := by
  have hself : SameLayout e e := ⟨rfl, rfl, rfl, rfl, rfl⟩
  exact ⟨processLine_by_kind e c1 line, processLine_text_atOrigin hself c1 c2 line,
    fun hk => processLine_atOrigin hself c1 c2 line (fun hr => absurd hr hk),
    fun hw => processLine_atOrigin hself c1 c2 line (fun _ => hw)⟩

theorem line_handling_by_line_only_witness :
    (lineKind "* Hello world".toList ≠ LineKind.rule ∧
      (processLine sampleEnv sampleCursor "* Hello world".toList).2.map DrawCall.atOrigin =
        (processLine sampleEnv { pageNo := 1, currentPage := a4, currentY := 30 }
          "* Hello world".toList).2.map DrawCall.atOrigin) ∧
    ((pageBreak sampleEnv sampleCursor).currentPage.width =
        (pageBreak sampleEnv ⟨0, ⟨600, 500⟩, 90⟩).currentPage.width ∧
      (processLine sampleEnv sampleCursor "---".toList).2.map DrawCall.atOrigin =
        (processLine sampleEnv ⟨0, ⟨600, 500⟩, 90⟩ "---".toList).2.map DrawCall.atOrigin) :=
  ⟨⟨by decide,
      (line_handling_by_line_only sampleEnv sampleCursor
        { pageNo := 1, currentPage := a4, currentY := 30 } "* Hello world".toList).2.2.1
        (by decide)⟩,
    ⟨by decide!,
      (line_handling_by_line_only sampleEnv sampleCursor ⟨0, ⟨600, 500⟩, 90⟩
        "---".toList).2.2.2 (by decide!)⟩⟩

/-- C15: the number of pages a call adds is the number of its check points
(the cursor before each input line and the cursor right after each forced wrap
break) at which y is strictly below 50; at such a point the routine goes on with
the page `addPage` returns and y set to that page's height minus 50, and at a
point with y at least 50, also exactly 50, the cursor is unchanged. -/
theorem pages_added_at_check_points {F : Type} (addPage : Nat → Page)
    (widthOfTextAtSize : F → Str → ℚ → ℚ) (page : Page) (text : Str) (yStart : ℚ)
    (font boldFont : F) (size : ℚ) :
    (drawWrappedText addPage widthOfTextAtSize page text yStart font boldFont size).1.pageNo =
      pagesAddedAt
        (drawLinesChecks (callEnv addPage widthOfTextAtSize page font boldFont size)
          { pageNo := 0, currentPage := page, currentY := yStart } (split '\n' text)) ∧
    (∀ (e : Env F) (c : Cursor), c.currentY < 50 →
      pageBreak e c =
        { pageNo := c.pageNo + 1
          currentPage := e.addPage c.pageNo
          currentY := (e.addPage c.pageNo).height - 50 }) ∧
    (∀ (e : Env F) (c : Cursor), 50 ≤ c.currentY → pageBreak e c = c) := by
  refine ⟨?_, ?_, ?_⟩
  · rw [drawWrappedText_eq_drawLines, drawLines_pages]
    simp
  · intro e c h
    unfold pageBreak
    rw [if_pos (by simpa [margin] using h)]
    rfl
  · intro e c h
    exact pageBreak_of_ge e c (by simpa [margin] using h)

theorem pages_added_at_check_points_witness :
    ((49 : ℚ) < 50 ∧
      pageBreak sampleEnv ⟨0, ⟨600, 800⟩, 49⟩ = ⟨1, a4, a4.height - 50⟩) ∧
    ((50 : ℚ) ≤ 50 ∧
      pageBreak sampleEnv ⟨0, ⟨600, 800⟩, 50⟩ = ⟨0, ⟨600, 800⟩, 50⟩) :=
  ⟨⟨by decide!,
      (pages_added_at_check_points (fun _ => a4) sampleWidth { width := 600, height := 800 }
        "a".toList 750 StdFont.helvetica StdFont.helveticaBold 10).2.1 sampleEnv
        ⟨0, ⟨600, 800⟩, 49⟩ (by decide!)⟩,
    ⟨by decide!,
      (pages_added_at_check_points (fun _ => a4) sampleWidth { width := 600, height := 800 }
        "a".toList 750 StdFont.helvetica StdFont.helveticaBold 10).2.2 sampleEnv
        ⟨0, ⟨600, 800⟩, 50⟩ (by decide!)⟩⟩

/-- C17: the wrap width of a call is the width of the page passed in minus
`2 * 50`, whatever pages are added: two calls on first pages of the same width
make the same `drawText` calls (same texts, fonts, sizes and x coordinates, in
the same order) for any pages `addPage` returns, any page heights and any start
y. -/
theorem wrap_width_fixed_by_first_page {F : Type} (addPage1 addPage2 : Nat → Page)
    (widthOfTextAtSize : F → Str → ℚ → ℚ) (page1 page2 : Page) (text : Str)
    (yStart1 yStart2 : ℚ) (font boldFont : F) (size : ℚ) (hw : page1.width = page2.width) :
    (callEnv addPage1 widthOfTextAtSize page1 font boldFont size).maxWidth
      = page1.width - 2 * 50 ∧
    ((drawWrappedText addPage1 widthOfTextAtSize page1 text yStart1 font boldFont size).2.map
        DrawCall.atOrigin).filter DrawCall.isText =
      ((drawWrappedText addPage2 widthOfTextAtSize page2 text yStart2 font boldFont size).2.map
        DrawCall.atOrigin).filter DrawCall.isText := by
  refine ⟨rfl, ?_⟩
  have hsame : SameLayout (callEnv addPage1 widthOfTextAtSize page1 font boldFont size)
      (callEnv addPage2 widthOfTextAtSize page2 font boldFont size) :=
    ⟨rfl, rfl, rfl, rfl, by simp only [callEnv, hw]⟩
  rw [drawWrappedText_eq_drawLines, drawWrappedText_eq_drawLines]
  exact drawLines_text_atOrigin hsame _ _ _

theorem wrap_width_fixed_by_first_page_witness :
    (160 : ℚ) = 160 ∧
    ((drawWrappedText (fun _ => a4) sampleWidth { width := 160, height := 800 }
        "aaa bbb ccc ddd eee fff".toList 60 StdFont.helvetica StdFont.helveticaBold 10).2.map
        DrawCall.atOrigin).filter DrawCall.isText =
      ((drawWrappedText (fun _ => { width := 1000, height := 1000 }) sampleWidth
        { width := 160, height := 300 } "aaa bbb ccc ddd eee fff".toList 700 StdFont.helvetica
        StdFont.helveticaBold 10).2.map DrawCall.atOrigin).filter DrawCall.isText :=
  ⟨rfl,
    (wrap_width_fixed_by_first_page (fun _ => a4) (fun _ => { width := 1000, height := 1000 })
      sampleWidth { width := 160, height := 800 } { width := 160, height := 300 }
      "aaa bbb ccc ddd eee fff".toList 60 700 StdFont.helvetica StdFont.helveticaBold 10 rfl).2⟩

/-- C18, as stated, fails: the words wrapped for `"a  b\tc"` are `a`, the empty
word and `b\tc`: two spaces in a row yield an empty word and the tab stays
inside a word; the line is drawn as the one text `"a  b\tc"`. -/
theorem words_not_whitespace_separated :
    ¬ (∀ w ∈ split ' ' "a  b\tc".toList, w ≠ [] ∧ ∀ ch ∈ w, isWhiteSpace ch = false) ∧
    split ' ' "a  b\tc".toList = ["a".toList, [], "b\tc".toList] ∧
    (processLine sampleEnv sampleCursor "a  b\tc".toList).2 =
      [DrawCall.drawText 0 "a  b\tc".toList 50 750 StdFont.helvetica 10] := by
  refine ⟨by decide, by decide, by decide!⟩

/-! ## Lemmas for a line that stays on its page -/

theorem wrapLoop_stay {F : Type} (e : Env F) (f : F) (s x : ℚ)
    (hlh : 0 ≤ e.defaultLineHeight) (words : List Str) :
    ∀ (c : Cursor) (buf : Str),
      margin ≤ c.currentY - (words.length : ℚ) * e.defaultLineHeight →
      (wrapLoop e f s x c buf words).1.pageNo = c.pageNo ∧
      (wrapLoop e f s x c buf words).1.currentPage = c.currentPage ∧
      (wrapLoop e f s x c buf words).1.currentY =
        c.currentY - ((wrapLoop e f s x c buf words).2.2.length : ℚ) * e.defaultLineHeight ∧
      (wrapLoop e f s x c buf words).2.2.length ≤ words.length ∧
      ∀ call ∈ (wrapLoop e f s x c buf words).2.2,
        ∃ t y, call = DrawCall.drawText c.pageNo t (margin + x) y f s := by
  induction words with
  | nil => intro c buf _; simp [wrapLoop]
  | cons word rest ih =>
    intro c buf h
    have hcast : (((word :: rest).length : ℕ) : ℚ) = (rest.length : ℚ) + 1 := by simp
    rw [hcast] at h
    have hn : (0 : ℚ) ≤ (rest.length : ℚ) * e.defaultLineHeight :=
      mul_nonneg (Nat.cast_nonneg _) hlh
    by_cases hw : measuredWidth e f s buf word < e.maxWidth - x
    · rw [wrapLoop_fit e f s x c buf word rest hw]
      obtain ⟨h1, h2, h3, h4, h5⟩ := ih c (testLine buf word) (by linarith)
      exact ⟨h1, h2, h3, Nat.le_succ_of_le h4, h5⟩
    · rw [wrapLoop_break e f s x c buf word rest hw]
      have hge : margin ≤ c.currentY - e.defaultLineHeight := by linarith
      have hpb : pageBreak e { c with currentY := c.currentY - e.defaultLineHeight } =
          { c with currentY := c.currentY - e.defaultLineHeight } :=
        pageBreak_of_ge e _ hge
      rw [hpb]
      obtain ⟨h1, h2, h3, h4, h5⟩ :=
        ih { c with currentY := c.currentY - e.defaultLineHeight } word (by
          show margin ≤ c.currentY - e.defaultLineHeight - _
          linarith)
      refine ⟨h1, h2, ?_, Nat.succ_le_succ h4, ?_⟩
      · show _ = c.currentY - ((_ : ℕ) : ℚ) * e.defaultLineHeight
        rw [h3, List.length_cons]
        push_cast
        ring
      · intro call hcall
        rcases List.mem_cons.1 hcall with hc | hc
        · exact ⟨_, _, hc⟩
        · exact h5 call hc

theorem wrapAndDraw_stay {F : Type} (e : Env F) (f : F) (s x : ℚ)
    (hlh : 0 ≤ e.defaultLineHeight) (c : Cursor) (t : Str)
    (h : margin ≤ c.currentY - ((split ' ' t).length : ℚ) * e.defaultLineHeight) :
    (wrapAndDraw e f s x c t).1.pageNo = c.pageNo ∧
    (wrapAndDraw e f s x c t).1.currentPage = c.currentPage ∧
    (wrapAndDraw e f s x c t).1.currentY =
      c.currentY - ((wrapAndDraw e f s x c t).2.length : ℚ) * e.defaultLineHeight ∧
    (wrapAndDraw e f s x c t).2.length ≤ (split ' ' t).length + 1 ∧
    ∀ call ∈ (wrapAndDraw e f s x c t).2,
      ∃ u y, call = DrawCall.drawText c.pageNo u (margin + x) y f s := by
  obtain ⟨h1, h2, h3, h4, h5⟩ := wrapLoop_stay e f s x hlh (split ' ' t) c [] h
  unfold wrapAndDraw
  refine ⟨h1, h2, ?_, ?_, ?_⟩
  · show (wrapLoop e f s x c [] (split ' ' t)).1.currentY - e.defaultLineHeight = _
    rw [h3, List.length_append, List.length_singleton]
    push_cast
    ring
  · rw [List.length_append, List.length_singleton]
    exact Nat.succ_le_succ h4
  · intro call hcall
    rcases List.mem_append.1 hcall with hc | hc
    · exact h5 call hc
    · rw [List.mem_singleton.1 hc, h1]
      exact ⟨_, _, rfl⟩

theorem wrapAndDraw_texts_two_words {F : Type} (e : Env F) (f : F) (s x : ℚ) (c : Cursor)
    (t a b : Str) (ht : split ' ' t = [a, b]) (ha : a ≠ [])
    (hfit : measuredWidth e f s a b < e.maxWidth - x) :
    ((wrapAndDraw e f s x c t).2.map DrawCall.text).filter (fun u => !u.isEmpty)
      = [a ++ ' ' :: b] := by
  have htl : testLine a b = a ++ ' ' :: b := by
    unfold testLine
    rw [if_neg ha]
  have hnil : testLine [] a = a := by simp [testLine]
  have hne : (a ++ ' ' :: b).isEmpty = false := by
    cases a with
    | nil => exact absurd rfl ha
    | cons ch l => rfl
  unfold wrapAndDraw
  rw [ht]
  by_cases hw : measuredWidth e f s [] a < e.maxWidth - x
  · rw [wrapLoop_fit e f s x c [] a [b] hw, hnil, wrapLoop_fit e f s x c a b [] hfit, htl]
    simp [wrapLoop, DrawCall.text, hne]
  · rw [wrapLoop_break e f s x c [] a [b] hw, wrapLoop_fit e f s x _ a b [] hfit, htl]
    simp [wrapLoop, DrawCall.text, hne]

/-- C13: for the text `"### Hi\n\nNormal text here\n* bullet one\n---"` on a page
600 by 800 at base size 10 from y = 750, with a metric that measures `"Hi"` (bold,
size 14) below 500 and `"bullet one"` below 485, the calls are, in order: the one
text `"Hi"` in bold at size 14 at (50, 744); nothing for the blank line; the
words `Normal`, `text`, `here` in one or more texts at x = 50 from y = 720; the
bullet glyph at x = 50 and, at the same y and x = 65, the text `"bullet one"`
(next to at most an empty text); one segment from x = 50 to x = 550 with
thickness 0.5.  No page is added and the returned y is below 750. -/
theorem end_to_end_example {F : Type} (addPage : Nat → Page) (w : F → Str → ℚ → ℚ)
    (font boldFont : F) (hHi : w boldFont "Hi".toList 14 < 500)
    (hBullet : w font "bullet one".toList 10 < 485) :
    ∃ (plain bullet : List (DrawCall F)) (yB yR : ℚ),
      (drawWrappedText addPage w { width := 600, height := 800 }
          "### Hi\n\nNormal text here\n* bullet one\n---".toList 750 font boldFont 10).2 =
        DrawCall.drawText 0 "Hi".toList 50 744 boldFont 14 ::
          (plain ++ DrawCall.drawText 0 bulletGlyph 50 yB font 10 ::
            (bullet ++ [DrawCall.drawLine 0 50 yR 550 yR 0.5])) ∧
      (∃ u rest, plain = DrawCall.drawText 0 u 50 720 font 10 :: rest) ∧
      (∀ call ∈ plain, ∃ u y, call = DrawCall.drawText 0 u 50 y font 10) ∧
      drawnWords plain = ["Normal".toList, "text".toList, "here".toList] ∧
      (∃ u rest, bullet = DrawCall.drawText 0 u 65 yB font 10 :: rest) ∧
      (∀ call ∈ bullet, ∃ u y, call = DrawCall.drawText 0 u 65 y font 10) ∧
      (bullet.map DrawCall.text).filter (fun u => !u.isEmpty) = ["bullet one".toList] ∧
      (drawWrappedText addPage w { width := 600, height := 800 }
          "### Hi\n\nNormal text here\n* bullet one\n---".toList 750 font boldFont 10).1.pageNo
        = 0 ∧
      (drawWrappedText addPage w { width := 600, height := 800 }
          "### Hi\n\nNormal text here\n* bullet one\n---".toList 750 font boldFont 10).1.currentY
        < 750 := by
  have hlines : split '\n' "### Hi\n\nNormal text here\n* bullet one\n---".toList =
      ["### Hi".toList, [], "Normal text here".toList, "* bullet one".toList, "---".toList] := by
    decide
  rw [drawWrappedText_eq_drawLines, hlines]
  generalize he : callEnv addPage w { width := 600, height := 800 } font boldFont 10 = e
  have hfont : e.font = font := by rw [← he]; rfl
  have hbold : e.boldFont = boldFont := by rw [← he]; rfl
  have hsize : e.size = 10 := by rw [← he]; rfl
  have hw : e.widthOfTextAtSize = w := by rw [← he]; rfl
  have hmax : e.maxWidth = 500 := by
    rw [← he]; simp only [callEnv, margin]; norm_num
  have hlh : e.defaultLineHeight = 12 := by
    simp only [Env.defaultLineHeight, hsize]; norm_num
  have hlh0 : (0 : ℚ) ≤ e.defaultLineHeight := by rw [hlh]; norm_num
  have h14 : e.size * 1.4 = 14 := by rw [hsize]; norm_num
  -- the heading
  have h1 : processLine e ⟨0, ⟨600, 800⟩, 750⟩ "### Hi".toList =
      (⟨0, ⟨600, 800⟩, 732⟩, [DrawCall.drawText 0 "Hi".toList 50 744 boldFont 14]) := by
    have hfit : measuredWidth e e.boldFont (e.size * 1.4) [] "Hi".toList < e.maxWidth - 0 := by
      have hb : isWordBold "Hi".toList = false := by decide
      have ht : testLine [] "Hi".toList = "Hi".toList := by decide
      simp only [measuredWidth, hb, ht, hw, hbold, h14, hmax]
      simpa using hHi
    have hsub : substring 4 "### Hi".toList = "Hi".toList := by decide
    have hsp : split ' ' "Hi".toList = ["Hi".toList] := by decide
    have ht : testLine [] "Hi".toList = "Hi".toList := by decide
    rw [processLine_heading e _ _ (by decide),
      pageBreak_of_ge e _ (by show margin ≤ (750 : ℚ); simp only [margin]; norm_num), hsub]
    unfold wrapAndDraw
    rw [hsp, wrapLoop_fit e _ _ _ _ _ _ _ hfit, ht]
    simp only [wrapLoop, List.nil_append, hlh, h14, hbold, margin]
    norm_num
  -- the blank line
  have h2 : processLine e ⟨0, ⟨600, 800⟩, 732⟩ [] = (⟨0, ⟨600, 800⟩, 720⟩, []) := by
    rw [processLine_blank e _ _ (by decide),
      pageBreak_of_ge e _ (by show margin ≤ (732 : ℚ); simp only [margin]; norm_num), hlh]
    norm_num
  -- the plain line
  have h3 : processLine e ⟨0, ⟨600, 800⟩, 720⟩ "Normal text here".toList =
      wrapAndDraw e font 10 0 ⟨0, ⟨600, 800⟩, 720⟩ "Normal text here".toList := by
    rw [processLine_plain e _ _ (by decide) (by decide) (by decide) (by decide),
      pageBreak_of_ge e _ (by show margin ≤ (720 : ℚ); simp only [margin]; norm_num),
      hfont, hsize]
  have hlen3 : (split ' ' "Normal text here".toList).length = 3 := by decide
  obtain ⟨p1, p2, p3, p4, p5⟩ := wrapAndDraw_stay e font 10 0 hlh0 ⟨0, ⟨600, 800⟩, 720⟩
    "Normal text here".toList (by
      rw [hlen3, hlh]; show margin ≤ (720 : ℚ) - _; simp only [margin]; norm_num)
  obtain ⟨u3, rest3, hfirst3⟩ := wrapAndDraw_first e font 10 0 ⟨0, ⟨600, 800⟩, 720⟩
    "Normal text here".toList
  have hwords3 := wrapAndDraw_words e font 10 0 ⟨0, ⟨600, 800⟩, 720⟩ "Normal text here".toList
  generalize wrapAndDraw e font 10 0 ⟨0, ⟨600, 800⟩, 720⟩ "Normal text here".toList = r3
    at h3 p1 p2 p3 p4 p5 hfirst3 hwords3
  have hlen3b : ((r3.2.length : ℕ) : ℚ) ≤ 4 := by
    have : r3.2.length ≤ 4 := by rw [hlen3] at p4; exact p4
    exact_mod_cast this
  have hy3 : margin ≤ r3.1.currentY := by
    rw [p3, hlh]; show margin ≤ (720 : ℚ) - _; simp only [margin]; linarith
  -- the bullet line
  have h4 : processLine e r3.1 "* bullet one".toList =
      ((wrapAndDraw e font 10 15 r3.1 "bullet one".toList).1,
        DrawCall.drawText 0 bulletGlyph 50 r3.1.currentY font 10 ::
          (wrapAndDraw e font 10 15 r3.1 "bullet one".toList).2) := by
    have hsub : substring 2 "* bullet one".toList = "bullet one".toList := by decide
    rw [processLine_bullet e _ _ (by decide), pageBreak_of_ge e _ hy3, hsub, hfont, hsize, p1]
    rfl
  have hlen4 : (split ' ' "bullet one".toList).length = 2 := by decide
  obtain ⟨q1, q2, q3, q4, q5⟩ := wrapAndDraw_stay e font 10 15 hlh0 r3.1 "bullet one".toList (by
      rw [hlen4, p3, hlh]; show margin ≤ (720 : ℚ) - _ - _; simp only [margin]
      push_cast; linarith)
  obtain ⟨u4, rest4, hfirst4⟩ := wrapAndDraw_first e font 10 15 r3.1 "bullet one".toList
  have htexts4 := wrapAndDraw_texts_two_words e font 10 15 r3.1 "bullet one".toList
    "bullet".toList "one".toList (by decide) (by decide) (by
      have hb : isWordBold "one".toList = false := by decide
      have ht : testLine "bullet".toList "one".toList = "bullet one".toList := by decide
      simp only [measuredWidth, hb, ht, hw, hmax]
      norm_num
      exact hBullet)
  generalize wrapAndDraw e font 10 15 r3.1 "bullet one".toList = r4
    at h4 q1 q2 q3 q4 q5 hfirst4 htexts4
  have hlen4b : ((r4.2.length : ℕ) : ℚ) ≤ 3 := by
    have : r4.2.length ≤ 3 := by rw [hlen4] at q4; exact q4
    exact_mod_cast this
  have hlen4c : (0 : ℚ) ≤ ((r4.2.length : ℕ) : ℚ) := Nat.cast_nonneg _
  have hlen3c : (0 : ℚ) ≤ ((r3.2.length : ℕ) : ℚ) := Nat.cast_nonneg _
  have hy4 : margin ≤ r4.1.currentY := by
    rw [q3, p3, hlh]; show margin ≤ (720 : ℚ) - _ - _; simp only [margin]; linarith
  -- the rule
  have h5 : processLine e r4.1 "---".toList =
      (⟨0, ⟨600, 800⟩, r4.1.currentY - 18⟩,
        [DrawCall.drawLine 0 50 (r4.1.currentY - 6) 550 (r4.1.currentY - 6) 0.5]) := by
    rw [processLine_rule e _ _ (by decide), pageBreak_of_ge e _ hy4, q1, q2, p1, p2, hlh]
    simp only [margin]
    norm_num
    exact ⟨by rw [q1, p1], by rw [q2, p2]⟩
  refine ⟨r3.2, r4.2, r3.1.currentY, r4.1.currentY - 6, ?_, ?_, ?_, ?_, ?_, ?_, ?_, ?_, ?_⟩
  · simp only [drawLines, h1, h2, h3, h4, h5, List.nil_append, List.append_nil,
      List.cons_append, List.singleton_append]
  · refine ⟨u3, rest3, ?_⟩
    rw [hfirst3]; simp only [margin]; norm_num
  · intro call hcall
    obtain ⟨u, y, hc⟩ := p5 call hcall
    exact ⟨u, y, by rw [hc]; simp only [margin]; norm_num⟩
  · rw [hwords3]; decide
  · refine ⟨u4, rest4, ?_⟩
    rw [hfirst4, p1]; simp only [margin]; norm_num
  · intro call hcall
    obtain ⟨u, y, hc⟩ := q5 call hcall
    exact ⟨u, y, by rw [hc, p1]; simp only [margin]; norm_num⟩
  · rw [htexts4]; decide
  · simp only [drawLines, h1, h2, h3, h4, h5]
  · simp only [drawLines, h1, h2, h3, h4, h5]
    rw [q3, p3, hlh]
    show (720 : ℚ) - _ - _ - 18 < 750
    linarith

theorem end_to_end_example_witness :
    sampleWidth StdFont.helveticaBold "Hi".toList 14 < 500 ∧
    sampleWidth StdFont.helvetica "bullet one".toList 10 < 485 ∧
    ∃ (plain bullet : List (DrawCall StdFont)) (yB yR : ℚ),
      (drawWrappedText (fun _ => a4) sampleWidth { width := 600, height := 800 }
          "### Hi\n\nNormal text here\n* bullet one\n---".toList 750 StdFont.helvetica
          StdFont.helveticaBold 10).2 =
        DrawCall.drawText 0 "Hi".toList 50 744 StdFont.helveticaBold 14 ::
          (plain ++ DrawCall.drawText 0 bulletGlyph 50 yB StdFont.helvetica 10 ::
            (bullet ++ [DrawCall.drawLine 0 50 yR 550 yR 0.5])) ∧
      (∃ u rest, plain = DrawCall.drawText 0 u 50 720 StdFont.helvetica 10 :: rest) ∧
      (∀ call ∈ plain, ∃ u y, call = DrawCall.drawText 0 u 50 y StdFont.helvetica 10) ∧
      drawnWords plain = ["Normal".toList, "text".toList, "here".toList] ∧
      (∃ u rest, bullet = DrawCall.drawText 0 u 65 yB StdFont.helvetica 10 :: rest) ∧
      (∀ call ∈ bullet, ∃ u y, call = DrawCall.drawText 0 u 65 y StdFont.helvetica 10) ∧
      (bullet.map DrawCall.text).filter (fun u => !u.isEmpty) = ["bullet one".toList] ∧
      (drawWrappedText (fun _ => a4) sampleWidth { width := 600, height := 800 }
          "### Hi\n\nNormal text here\n* bullet one\n---".toList 750 StdFont.helvetica
          StdFont.helveticaBold 10).1.pageNo = 0 ∧
      (drawWrappedText (fun _ => a4) sampleWidth { width := 600, height := 800 }
          "### Hi\n\nNormal text here\n* bullet one\n---".toList 750 StdFont.helvetica
          StdFont.helveticaBold 10).1.currentY < 750 :=
  ⟨by decide!, by decide!,
    end_to_end_example (fun _ => a4) sampleWidth StdFont.helvetica StdFont.helveticaBold
      (by decide!) (by decide!)⟩

/-! ## Lemmas on the elements of `parseRangeString` -/

theorem mem_setAdd (l : List Int) (x k : Int) : k ∈ setAdd l x ↔ k ∈ l ∨ k = x := by
  unfold setAdd
  split_ifs with h
  · constructor
    · exact Or.inl
    · rintro (hk | hk)
      · exact hk
      · rw [hk]; exact h
  · simp

theorem mem_foldl_setAdd {α : Type} (P : α → Prop) [DecidablePred P] (g : α → Int)
    (js : List α) :
    ∀ (init : List Int) (k : Int),
      k ∈ js.foldl (fun acc j => if P j then setAdd acc (g j) else acc) init ↔
        k ∈ init ∨ ∃ j ∈ js, P j ∧ k = g j := by
  induction js with
  | nil => intro init k; simp
  | cons j rest ih =>
    intro init k
    rw [List.foldl_cons, ih]
    by_cases hp : P j
    · rw [if_pos hp, mem_setAdd]
      constructor
      · rintro ((h | h) | ⟨i, hi, hpi, hk⟩)
        · exact Or.inl h
        · exact Or.inr ⟨j, List.mem_cons_self _ _, hp, h⟩
        · exact Or.inr ⟨i, List.mem_cons_of_mem _ hi, hpi, hk⟩
      · rintro (h | ⟨i, hi, hpi, hk⟩)
        · exact Or.inl (Or.inl h)
        · rcases List.mem_cons.1 hi with rfl | hi2
          · exact Or.inl (Or.inr hk)
          · exact Or.inr ⟨i, hi2, hpi, hk⟩
    · rw [if_neg hp]
      constructor
      · rintro (h | ⟨i, hi, hpi, hk⟩)
        · exact Or.inl h
        · exact Or.inr ⟨i, List.mem_cons_of_mem _ hi, hpi, hk⟩
      · rintro (h | ⟨i, hi, hpi, hk⟩)
        · exact Or.inl h
        · rcases List.mem_cons.1 hi with rfl | hi2
          · exact absurd hpi hp
          · exact Or.inr ⟨i, hi2, hpi, hk⟩

theorem mem_rangeLoop (maxPage start stop : Int) (l : List Int) (k : Int) :
    k ∈ rangeLoop maxPage start stop l ↔
      k ∈ l ∨ (start ≤ k + 1 ∧ k + 1 ≤ stop ∧ 0 < k + 1 ∧ k + 1 ≤ maxPage) := by
  unfold rangeLoop
  rw [mem_foldl_setAdd (fun j : Int => 0 < start + j ∧ start + j ≤ maxPage)
    (fun j : Int => start + j - 1)]
  constructor
  · rintro (h | ⟨j, hj, ⟨hp1, hp2⟩, hk⟩)
    · exact Or.inl h
    · have hj2 : ∃ a : Nat, a < (stop - start + 1).toNat ∧ j = (a : Int) := by
        simpa using hj
      obtain ⟨a, hlt, rfl⟩ := hj2
      right
      refine ⟨by omega, by omega, by omega, by omega⟩
  · rintro (h | ⟨h1, h2, h3, h4⟩)
    · exact Or.inl h
    · right
      refine ⟨((k + 1 - start).toNat : Int), ?_, ⟨by omega, by omega⟩, by omega⟩
      have : ∃ a : Nat, a < (stop - start + 1).toNat ∧ ((k + 1 - start).toNat : Int) = (a : Int) :=
        ⟨(k + 1 - start).toNat, by omega, rfl⟩
      simpa using this

theorem mem_parsePart (maxPage : Int) (l : List Int) (part : Str) (k : Int) :
    k ∈ parsePart maxPage l part ↔
      k ∈ l ∨ (0 < k + 1 ∧ k + 1 ≤ maxPage ∧ partNames part (k + 1)) := by
  unfold parsePart partNames
  dsimp only
  by_cases hdash : '-' ∈ trim part
  · rw [if_pos hdash]
    rcases h0 : ((split '-' (trim part)).map parseInt).head? with _ | (_ | start)
    · simp [hdash]
    · simp [hdash]
    · rcases h1 : ((split '-' (trim part)).map parseInt).tail.head? with _ | (_ | stop)
      · simp [hdash]
      · simp [hdash]
      · by_cases hle : start ≤ stop
        · simp only [hle, if_true, mem_rangeLoop, hdash, not_true_eq_false, false_and, false_or,
            true_and, Option.some.injEq, exists_and_left, exists_eq_left']
          constructor
          · rintro (h | ⟨a, b, c, d⟩)
            · exact Or.inl h
            · exact Or.inr ⟨c, d, a, b⟩
          · rintro (h | ⟨c, d, a, b⟩)
            · exact Or.inl h
            · exact Or.inr ⟨a, b, c, d⟩
        · simp only [hle, if_false, hdash, not_true_eq_false, false_and, false_or, true_and,
            Option.some.injEq, exists_and_left, exists_eq_left']
          constructor
          · exact Or.inl
          · rintro (h | ⟨_, _, a, b⟩)
            · exact h
            · exact absurd (le_trans a b) hle
  · rw [if_neg hdash]
    rcases hnum : parseInt (trim part) with _ | num
    · simp [hdash]
    · by_cases hin : 0 < num ∧ num ≤ maxPage
      · simp only [hin, and_self, if_true, mem_setAdd, hdash, not_false_eq_true, true_and,
          Option.some.injEq, false_and, or_false]
        constructor
        · rintro (h | h)
          · exact Or.inl h
          · exact Or.inr ⟨by omega, by omega, by omega⟩
        · rintro (h | ⟨_, _, h⟩)
          · exact Or.inl h
          · exact Or.inr (by omega)
      · simp only [hin, if_false, hdash, not_false_eq_true, true_and, Option.some.injEq,
          false_and, or_false]
        constructor
        · exact Or.inl
        · rintro (h | ⟨a, b, h⟩)
          · exact h
          · exact absurd ⟨by omega, by omega⟩ hin

theorem mem_foldl_parsePart (maxPage : Int) (parts : List Str) :
    ∀ (init : List Int) (k : Int),
      k ∈ parts.foldl (parsePart maxPage) init ↔
        k ∈ init ∨ (0 < k + 1 ∧ k + 1 ≤ maxPage ∧ ∃ part ∈ parts, partNames part (k + 1)) := by
  induction parts with
  | nil => intro init k; simp
  | cons part rest ih =>
    intro init k
    rw [List.foldl_cons, ih, mem_parsePart]
    constructor
    · rintro ((h | ⟨a, b, c⟩) | ⟨a, b, q, hq, c⟩)
      · exact Or.inl h
      · exact Or.inr ⟨a, b, part, List.mem_cons_self _ _, c⟩
      · exact Or.inr ⟨a, b, q, List.mem_cons_of_mem _ hq, c⟩
    · rintro (h | ⟨a, b, q, hq, c⟩)
      · exact Or.inl (Or.inl h)
      · rcases List.mem_cons.1 hq with rfl | hq2
        · exact Or.inl (Or.inr ⟨a, b, c⟩)
        · exact Or.inr ⟨a, b, q, hq2, c⟩

theorem parsePart_of_names_nothing (maxPage : Int) (acc : List Int) (part : Str)
    (h : ∀ n, ¬ partNames part n) : parsePart maxPage acc part = acc := by
  unfold parsePart
  dsimp only
  by_cases hdash : '-' ∈ trim part
  · rw [if_pos hdash]
    rcases h0 : ((split '-' (trim part)).map parseInt).head? with _ | (_ | start)
    · rfl
    · rfl
    · rcases h1 : ((split '-' (trim part)).map parseInt).tail.head? with _ | (_ | stop)
      · rfl
      · rfl
      · by_cases hle : start ≤ stop
        · exact absurd (Or.inr ⟨hdash, start, stop, h0, h1, le_refl _, hle⟩) (h start)
        · simp only [hle, if_false]
  · rw [if_neg hdash]
    rcases hnum : parseInt (trim part) with _ | num
    · rfl
    · exact absurd (Or.inl ⟨hdash, hnum⟩) (h num)

/-! ## Lemmas on the handlers -/

theorem flatMap_pages_map (f : Int → Str) (l : List Int) :
    (l.map (fun i => ({ name := f i, pages := [i] } : ZipEntry))).flatMap ZipEntry.pages = l := by
  induction l with
  | nil => rfl
  | cons a rest ih =>
    simp only [List.map_cons, List.flatMap_cons, List.singleton_append, ih]

theorem isSupportedImage_iff (file : ImageFile) :
    isSupportedImage file = true ↔
      (file.type = "image/jpeg".toList ∨ file.type = "image/png".toList) := by
  simp [isSupportedImage]

theorem imageLoop_ok (scaleToFit : Image → ℚ → ℚ → Image) (fit : Bool) (files : List ImageFile)
    (hdec : ∀ f ∈ files, isSupportedImage f = true → ∃ image, f.embed = EmbedResult.embedded image) :
    ∃ pages, imageLoop scaleToFit fit files = Except.ok pages ∧
      pages.map ImagePage.fileName = (files.filter isSupportedImage).map ImageFile.name := by
  induction files with
  | nil => exact ⟨[], rfl, rfl⟩
  | cons file rest ih =>
    obtain ⟨pages, hp, hnames⟩ := ih (fun f hf => hdec f (List.mem_cons_of_mem _ hf))
    by_cases hs : isSupportedImage file = true
    · obtain ⟨image, himg⟩ := hdec file (List.mem_cons_self _ _) hs
      refine ⟨imagePage scaleToFit fit file.name image :: pages, ?_, ?_⟩
      · rw [imageLoop, if_pos ((isSupportedImage_iff file).1 hs), himg, hp]
      · rw [List.filter_cons_of_pos hs, List.map_cons, List.map_cons, hnames]
        unfold imagePage
        split_ifs <;> rfl
    · refine ⟨pages, ?_, ?_⟩
      · rw [imageLoop, if_neg (fun h => hs ((isSupportedImage_iff file).2 h)), hp]
      · rw [List.filter_cons_of_neg hs, hnames]

/-! ## Theorems on the elements of `parseRangeString` and on the handlers -/

/-- C21: an index `k` is in the result of `parseRangeString` exactly when
`1 ≤ k + 1 ≤ maxPage` and some comma-separated part names the page number
`k + 1` (a single number read as `k + 1`, or a range `start-end` with
`start ≤ k + 1 ≤ end`); a part that names no number (it does not parse, or its
start is above its end) leaves the set as it is. -/
theorem parseRangeString_mem_iff (rangeString : Str) (maxPage k : Int) :
    (k ∈ parseRangeString rangeString maxPage ↔
      1 ≤ k + 1 ∧ k + 1 ≤ maxPage ∧ ∃ part ∈ split ',' rangeString, partNames part (k + 1)) ∧
    (∀ part, (∀ n, ¬ partNames part n) → ∀ acc, parsePart maxPage acc part = acc) := by
  refine ⟨?_, fun part h acc => parsePart_of_names_nothing maxPage acc part h⟩
  unfold parseRangeString
  rw [(List.perm_insertionSort (· ≤ ·) _).mem_iff, mem_foldl_parsePart]
  constructor
  · rintro (h | ⟨a, b, c⟩)
    · simp at h
    · exact ⟨by omega, b, c⟩
  · rintro ⟨a, b, c⟩
    exact Or.inr ⟨by omega, b, c⟩

theorem parseRangeString_mem_iff_witness :
    (∀ n, ¬ partNames "5-3".toList n) ∧ parsePart 10 [0] "5-3".toList = [0] ∧
    ((4 : Int) ∈ parseRangeString "1, 3-5, 8".toList 8 ↔
      (1 : Int) ≤ 4 + 1 ∧ (4 : Int) + 1 ≤ 8 ∧
        ∃ part ∈ split ',' "1, 3-5, 8".toList, partNames part (4 + 1)) :=
  have hnone : ∀ n, ¬ partNames "5-3".toList n := by
    intro n hn
    rcases hn with ⟨hdash, _⟩ | ⟨_, start, stop, h0, h1, h2, h3⟩
    · exact hdash (by decide)
    · have e0 : ((split '-' (trim "5-3".toList)).map parseInt).head? = some (some 5) := by decide
      have e1 : ((split '-' (trim "5-3".toList)).map parseInt).tail.head? = some (some 3) := by
        decide
      rw [e0] at h0
      rw [e1] at h1
      simp only [Option.some.injEq] at h0 h1
      omega
  ⟨hnone, (parseRangeString_mem_iff "1".toList 10 0).2 "5-3".toList hnone [0],
    (parseRangeString_mem_iff "1, 3-5, 8".toList 8 4).1⟩

/-- C22: once the document is loaded, the split operation fails with the error
"No valid pages selected. Check your range and the document's page count."
exactly when `parseRangeString` returns the empty list for the entered range and
the page count; then no zip is offered; otherwise a zip is offered, every page
copied into its PDFs is one of the returned indices, and the pages copied are
the returned indices in order. -/
theorem split_fails_iff_no_valid_pages (rangeValue : Str) (pageCount : Int)
    (individually : Bool) :
    (splitClick (LoadResult.loaded pageCount) rangeValue individually
        = SplitOutcome.failed (splitErrorText noValidPagesMessage) ↔
      parseRangeString rangeValue pageCount = []) ∧
    (parseRangeString rangeValue pageCount = [] →
      ∀ zip, splitClick (LoadResult.loaded pageCount) rangeValue individually
        ≠ SplitOutcome.offered zip) ∧
    (parseRangeString rangeValue pageCount ≠ [] →
      ∃ zip, splitClick (LoadResult.loaded pageCount) rangeValue individually
          = SplitOutcome.offered zip ∧
        (∀ entry ∈ zip, ∀ i ∈ entry.pages, i ∈ parseRangeString rangeValue pageCount) ∧
        zip.flatMap ZipEntry.pages = parseRangeString rangeValue pageCount) := by
  unfold splitClick
  dsimp only
  by_cases h : parseRangeString rangeValue pageCount = []
  · simp [h]
  · have hlen : ¬ (parseRangeString rangeValue pageCount).length = 0 := by
      simpa [List.length_eq_zero] using h
    rw [if_neg hlen]
    refine ⟨?_, fun h2 => absurd h2 h, fun _ => ?_⟩
    · cases individually <;> simp [h]
    · cases individually
      · refine ⟨_, rfl, ?_, ?_⟩
        · intro entry hentry i hi
          rw [List.mem_singleton.1 hentry] at hi
          exact hi
        · simp
      · refine ⟨_, rfl, ?_, flatMap_pages_map _ _⟩
        intro entry hentry i hi
        obtain ⟨a, ha, rfl⟩ := List.mem_map.1 hentry
        rw [List.mem_singleton.1 hi]
        exact ha

theorem split_fails_iff_no_valid_pages_witness :
    parseRangeString "3-5, 8".toList 2 = [] ∧
    (∀ zip, splitClick (LoadResult.loaded 2) "3-5, 8".toList false ≠ SplitOutcome.offered zip) ∧
    parseRangeString "2, 1".toList 2 ≠ [] ∧
    ∃ zip, splitClick (LoadResult.loaded 2) "2, 1".toList true = SplitOutcome.offered zip ∧
      (∀ entry ∈ zip, ∀ i ∈ entry.pages, i ∈ parseRangeString "2, 1".toList 2) ∧
      zip.flatMap ZipEntry.pages = parseRangeString "2, 1".toList 2 :=
  ⟨by decide,
    (split_fails_iff_no_valid_pages "3-5, 8".toList 2 false).2.1 (by decide),
    by decide,
    (split_fails_iff_no_valid_pages "2, 1".toList 2 true).2.2 (by decide)⟩

/-- C23: after a file-selection event that carries a file, the file is accepted
(it is the selected file, the button is enabled, the error is hidden) exactly
when its size is at most `10 * 1024 * 1024 = 10485760` bytes; a larger file
leaves the selected file null and the button disabled, and a click then returns
at once. -/
theorem compress_accepts_iff_within_limit (s : CompressState) (file : PdfFile) :
    MAX_PDF_SIZE_BYTES = 10485760 ∧
    (((compressChange s (some file)).selectedCompressFile = some file ∧
        (compressChange s (some file)).buttonDisabled = false ∧
        (compressChange s (some file)).errorHidden = true) ↔ file.size ≤ 10485760) ∧
    (10485760 < file.size →
      (compressChange s (some file)).selectedCompressFile = none ∧
      (compressChange s (some file)).buttonDisabled = true ∧
      compressClick (compressChange s (some file)) = none) := by
  have hmax : MAX_PDF_SIZE_BYTES = 10485760 := by decide
  refine ⟨hmax, ?_, ?_⟩
  · unfold compressChange
    dsimp only
    rw [hmax]
    by_cases h : file.size > 10485760
    · rw [if_pos h]
      simp
      omega
    · rw [if_neg h]
      simp
      omega
  · intro h
    unfold compressChange
    dsimp only
    rw [hmax, if_pos h]
    exact ⟨rfl, rfl, rfl⟩

theorem compress_accepts_iff_within_limit_witness :
    (10485760 : Nat) < 10485761 ∧
    (compressChange ⟨some ⟨"old.pdf".toList, 5⟩, "old.pdf".toList, false, true, true⟩
        (some ⟨"big.pdf".toList, 10485761⟩)).selectedCompressFile = none ∧
    (compressChange ⟨some ⟨"old.pdf".toList, 5⟩, "old.pdf".toList, false, true, true⟩
        (some ⟨"big.pdf".toList, 10485761⟩)).buttonDisabled = true ∧
    compressClick
      (compressChange ⟨some ⟨"old.pdf".toList, 5⟩, "old.pdf".toList, false, true, true⟩
        (some ⟨"big.pdf".toList, 10485761⟩)) = none :=
  ⟨by decide,
    (compress_accepts_iff_within_limit
      ⟨some ⟨"old.pdf".toList, 5⟩, "old.pdf".toList, false, true, true⟩
      ⟨"big.pdf".toList, 10485761⟩).2.2 (by decide)⟩

/-- C24: `updateCompressionRatio` sets the ratio to 0.8 for `low`, 0.5 for
`medium`, 0.2 for `high`, and for `custom` to `(100 - p) / 100` where `p` is the
entered percent when it is a number with `0 ≤ p ≤ 99` and 50 otherwise; for
these four levels the ratio lies between 0.01 and 1, and any other level keeps a
ratio that lies there. -/
theorem updateCompressionRatio_values (current : ℚ) (customPercent : Option ℚ) :
    updateCompressionRatio current "low".toList customPercent = 0.8 ∧
    updateCompressionRatio current "medium".toList customPercent = 0.5 ∧
    updateCompressionRatio current "high".toList customPercent = 0.2 ∧
    (∀ p : ℚ, 0 ≤ p → p ≤ 99 →
      updateCompressionRatio current "custom".toList (some p) = (100 - p) / 100) ∧
    (∀ p : ℚ, p < 0 ∨ 99 < p →
      updateCompressionRatio current "custom".toList (some p) = (100 - 50) / 100) ∧
    updateCompressionRatio current "custom".toList none = (100 - 50) / 100 ∧
    (∀ level : Str,
      level = "low".toList ∨ level = "medium".toList ∨ level = "high".toList ∨
        level = "custom".toList →
      0.01 ≤ updateCompressionRatio current level customPercent ∧
        updateCompressionRatio current level customPercent ≤ 1) ∧
    (∀ level : Str, 0.01 ≤ current → current ≤ 1 →
      0.01 ≤ updateCompressionRatio current level customPercent ∧
        updateCompressionRatio current level customPercent ≤ 1) := by
  have hm : ¬ "medium".toList = "low".toList := by decide
  have hh1 : ¬ "high".toList = "low".toList := by decide
  have hh2 : ¬ "high".toList = "medium".toList := by decide
  have hc1 : ¬ "custom".toList = "low".toList := by decide
  have hc2 : ¬ "custom".toList = "medium".toList := by decide
  have hc3 : ¬ "custom".toList = "high".toList := by decide
  have hcustom : ∀ q : Option ℚ,
      (0.01 : ℚ) ≤ updateCompressionRatio current "custom".toList q ∧
        updateCompressionRatio current "custom".toList q ≤ 1 := by
    intro q
    unfold updateCompressionRatio
    rw [if_neg hc1, if_neg hc2, if_neg hc3, if_pos rfl]
    cases q with
    | none => constructor <;> norm_num
    | some p =>
      dsimp only
      split_ifs with hp
      · constructor <;> norm_num
      · have h0 : 0 ≤ p := by
          by_contra hneg; exact hp (Or.inl (lt_of_not_ge hneg))
        have h99 : p ≤ 99 := by
          by_contra hbig; exact hp (Or.inr (lt_of_not_ge hbig))
        constructor
        · rw [le_div_iff₀ (by norm_num)]; linarith
        · rw [div_le_iff₀ (by norm_num)]; linarith
  have hfour : ∀ level : Str,
      level = "low".toList ∨ level = "medium".toList ∨ level = "high".toList ∨
        level = "custom".toList →
      0.01 ≤ updateCompressionRatio current level customPercent ∧
        updateCompressionRatio current level customPercent ≤ 1 := by
    rintro level (rfl | rfl | rfl | rfl)
    · unfold updateCompressionRatio
      rw [if_pos rfl]; constructor <;> norm_num
    · unfold updateCompressionRatio
      rw [if_neg hm, if_pos rfl]; constructor <;> norm_num
    · unfold updateCompressionRatio
      rw [if_neg hh1, if_neg hh2, if_pos rfl]; constructor <;> norm_num
    · exact hcustom customPercent
  refine ⟨?_, ?_, ?_, ?_, ?_, ?_, hfour, ?_⟩
  · unfold updateCompressionRatio
    rw [if_pos rfl]
  · unfold updateCompressionRatio
    rw [if_neg hm, if_pos rfl]
  · unfold updateCompressionRatio
    rw [if_neg hh1, if_neg hh2, if_pos rfl]
  · intro p h0 h99
    unfold updateCompressionRatio
    rw [if_neg hc1, if_neg hc2, if_neg hc3, if_pos rfl]
    dsimp only
    rw [if_neg (by rintro (h | h) <;> linarith)]
  · intro p hp
    unfold updateCompressionRatio
    rw [if_neg hc1, if_neg hc2, if_neg hc3, if_pos rfl]
    dsimp only
    rw [if_pos (by rcases hp with h | h; exact Or.inl h; exact Or.inr h)]
  · unfold updateCompressionRatio
    rw [if_neg hc1, if_neg hc2, if_neg hc3, if_pos rfl]
  · intro level hlo hhi
    by_cases h4 : level = "low".toList ∨ level = "medium".toList ∨ level = "high".toList ∨
        level = "custom".toList
    · exact hfour level h4
    · have e1 : ¬ level = "low".toList := fun h => h4 (Or.inl h)
      have e2 : ¬ level = "medium".toList := fun h => h4 (Or.inr (Or.inl h))
      have e3 : ¬ level = "high".toList := fun h => h4 (Or.inr (Or.inr (Or.inl h)))
      have e4 : ¬ level = "custom".toList := fun h => h4 (Or.inr (Or.inr (Or.inr h)))
      unfold updateCompressionRatio
      rw [if_neg e1, if_neg e2, if_neg e3, if_neg e4]
      exact ⟨hlo, hhi⟩

theorem updateCompressionRatio_values_witness :
    ((0 : ℚ) ≤ 30 ∧ (30 : ℚ) ≤ 99 ∧
      updateCompressionRatio 0.5 "custom".toList (some 30) = (100 - 30) / 100) ∧
    (((150 : ℚ) < 0 ∨ (99 : ℚ) < 150) ∧
      updateCompressionRatio 0.5 "custom".toList (some 150) = (100 - 50) / 100) :=
  ⟨⟨by decide!, by decide!,
      (updateCompressionRatio_values 0.5 (some 30)).2.2.2.1 30 (by decide!) (by decide!)⟩,
    ⟨by decide!,
      (updateCompressionRatio_values 0.5 (some 150)).2.2.2.2.1 150 (by decide!)⟩⟩

/-- C25, as stated, fails for the empty selection: the click handler returns at
its first line, so no error is shown although no selected file has a supported
type. -/
theorem image_click_empty_selection_no_error :
    ¬ (imageClick sampleScaleToFit false []
          = ImageOutcome.failed (imageErrorText noSupportedImagesMessage) ↔
        ∀ f ∈ ([] : List ImageFile), isSupportedImage f = false) := by
  intro h
  have h2 := h.2 (by simp)
  exact ImageOutcome.noConfusion h2

/-- C25, amended: for a selection that is not empty and whose JPEG and PNG files
embed, the conversion fails with "No supported images were found to convert."
exactly when no selected file has type `image/jpeg` or `image/png`; otherwise it
adds one page per file of one of these two types, in selection order, and
skips every other file.  For the empty selection the handler returns at once:
nothing is converted and no error is shown. -/
theorem image_conversion_pages (scaleToFit : Image → ℚ → ℚ → Image) (fit : Bool)
    (files : List ImageFile) (hne : files ≠ [])
    (hdec : ∀ f ∈ files, isSupportedImage f = true →
      ∃ image, f.embed = EmbedResult.embedded image) :
    (imageClick scaleToFit fit files
        = ImageOutcome.failed (imageErrorText noSupportedImagesMessage) ↔
      ∀ f ∈ files, isSupportedImage f = false) ∧
    ((∃ f ∈ files, isSupportedImage f = true) →
      ∃ pages download, imageClick scaleToFit fit files = ImageOutcome.converted pages download ∧
        pages.map ImagePage.fileName = (files.filter isSupportedImage).map ImageFile.name) ∧
    imageClick scaleToFit fit [] = ImageOutcome.notStarted := by
  obtain ⟨pages, hp, hnames⟩ := imageLoop_ok scaleToFit fit files hdec
  have hlen : pages.length = (files.filter isSupportedImage).length := by
    have := congrArg List.length hnames
    simpa using this
  have hzero : pages.length = 0 ↔ ∀ f ∈ files, isSupportedImage f = false := by
    rw [hlen, List.length_eq_zero, List.filter_eq_nil_iff]
    constructor
    · intro h f hf
      simpa using h f hf
    · intro h f hf
      simpa using h f hf
  cases files with
  | nil => exact absurd rfl hne
  | cons first rest =>
    refine ⟨?_, ?_, rfl⟩
    · unfold imageClick
      rw [hp]
      dsimp only
      by_cases hz : pages.length = 0
      · rw [if_pos hz]
        exact ⟨fun _ => hzero.1 hz, fun _ => rfl⟩
      · rw [if_neg hz]
        exact ⟨fun h => ImageOutcome.noConfusion h, fun h => absurd (hzero.2 h) hz⟩
    · rintro ⟨f, hf, hs⟩
      have hz : ¬ pages.length = 0 := by
        intro hz
        have := hzero.1 hz f hf
        rw [hs] at this
        exact Bool.noConfusion this
      refine ⟨pages, (split '.' first.name).headD [] ++ "_converted.pdf".toList, ?_, hnames⟩
      unfold imageClick
      rw [hp]
      dsimp only
      rw [if_neg hz]

theorem image_conversion_pages_witness :
    ([⟨"a.txt".toList, "text/plain".toList, EmbedResult.failed []⟩,
        ⟨"b.png".toList, "image/png".toList, EmbedResult.embedded ⟨100, 200⟩⟩] : List ImageFile)
      ≠ [] ∧
    ∃ pages download,
      imageClick sampleScaleToFit false
          [⟨"a.txt".toList, "text/plain".toList, EmbedResult.failed []⟩,
            ⟨"b.png".toList, "image/png".toList, EmbedResult.embedded ⟨100, 200⟩⟩]
        = ImageOutcome.converted pages download ∧
      pages.map ImagePage.fileName =
        (([⟨"a.txt".toList, "text/plain".toList, EmbedResult.failed []⟩,
          ⟨"b.png".toList, "image/png".toList, EmbedResult.embedded ⟨100, 200⟩⟩] :
            List ImageFile).filter isSupportedImage).map ImageFile.name :=
  ⟨by decide,
    (image_conversion_pages sampleScaleToFit false
      [⟨"a.txt".toList, "text/plain".toList, EmbedResult.failed []⟩,
        ⟨"b.png".toList, "image/png".toList, EmbedResult.embedded ⟨100, 200⟩⟩]
      (by decide)
      (by
        intro f hf hs
        rcases List.mem_cons.1 hf with rfl | hf2
        · exact absurd hs (by decide)
        · rw [List.mem_singleton.1 hf2]
          exact ⟨⟨100, 200⟩, rfl⟩)).2.1
      ⟨⟨"b.png".toList, "image/png".toList, EmbedResult.embedded ⟨100, 200⟩⟩, by simp, by decide⟩⟩

/-! ## Lemmas on the last draw call and on the errors of the library -/

theorem getLast?_cons_of_getLast? {α : Type} (a d : α) (l : List α)
    (h : l.getLast? = some d) : (a :: l).getLast? = some d := by
  cases l with
  | nil => simp at h
  | cons b rest => rw [List.getLast?_cons_cons]; exact h

theorem getLast?_append_of_getLast? {α : Type} (d : α) (l1 l2 : List α)
    (h : l2.getLast? = some d) : (l1 ++ l2).getLast? = some d := by
  induction l1 with
  | nil => simpa using h
  | cons a rest ih => rw [List.cons_append]; exact getLast?_cons_of_getLast? a d _ ih

theorem wrapAndDraw_last {F : Type} (e : Env F) (f : F) (s x : ℚ) (c : Cursor) (t : Str) :
    ∃ d, (wrapAndDraw e f s x c t).2.getLast? = some d ∧
      d.page = (wrapAndDraw e f s x c t).1.pageNo ∧
      ∀ y ∈ d.ys, (wrapAndDraw e f s x c t).1.currentY = y - e.defaultLineHeight := by
  unfold wrapAndDraw
  refine ⟨_, getLast?_append_of_getLast? _ _ _ rfl, rfl, ?_⟩
  intro y hy
  have : y = (wrapLoop e f s x c [] (split ' ' t)).1.currentY := by
    simpa [DrawCall.ys] using hy
  rw [this]

theorem processLine_last {F : Type} (e : Env F) (c : Cursor) (line : Str)
    (hne : trim line ≠ []) :
    ∃ d, (processLine e c line).2.getLast? = some d ∧
      d.page = (processLine e c line).1.pageNo ∧
      ∀ y ∈ d.ys, (processLine e c line).1.currentY = y - e.defaultLineHeight := by
  unfold processLine
  dsimp only
  rw [if_neg hne]
  split_ifs
  · exact wrapAndDraw_last _ _ _ _ _ _
  · refine ⟨_, rfl, rfl, ?_⟩
    intro y hy
    have : y = (pageBreak e c).currentY - e.defaultLineHeight / 2 := by
      simpa [DrawCall.ys] using hy
    rw [this]
    show (pageBreak e c).currentY - e.defaultLineHeight * 1.5 = _
    ring
  · obtain ⟨d, h1, h2, h3⟩ := wrapAndDraw_last e e.font e.size 15 (pageBreak e c)
      (substring 2 line)
    exact ⟨d, getLast?_cons_of_getLast? _ _ _ h1, h2, h3⟩
  · exact wrapAndDraw_last _ _ _ _ _ _

theorem mem_of_mem_split (sep : Char) (s w : Str) (hw : w ∈ split sep s) :
    ∀ ch ∈ w, ch ∈ s := by
  induction s generalizing w with
  | nil =>
    have : w = [] := by simpa [split] using hw
    intro ch hch
    rw [this] at hch
    exact absurd hch (List.not_mem_nil ch)
  | cons c cs ih =>
    intro ch hch
    by_cases hc : c = sep
    · have hw2 : w = [] ∨ w ∈ split sep cs := by simpa [split, hc] using hw
      rcases hw2 with h | h
      · rw [h] at hch; exact absurd hch (List.not_mem_nil ch)
      · exact List.mem_cons_of_mem _ (ih w h ch hch)
    · have h2 : split sep (c :: cs) =
          match split sep cs with
          | [] => [[c]]
          | v :: vs => (c :: v) :: vs := by
        rw [split]; simp [hc]
      rw [h2] at hw
      cases hs : split sep cs with
      | nil => exact absurd hs (split_ne_nil sep cs)
      | cons v vs =>
        rw [hs] at hw
        rcases List.mem_cons.1 hw with h | h
        · rw [h] at hch
          rcases List.mem_cons.1 hch with h3 | h3
          · rw [h3]; exact List.mem_cons_self _ _
          · exact List.mem_cons_of_mem _
              (ih v (by rw [hs]; exact List.mem_cons_self _ _) ch h3)
        · exact List.mem_cons_of_mem _
            (ih w (by rw [hs]; exact List.mem_cons_of_mem _ h) ch hch)

theorem testLine_chars (P : Char → Prop) (hsp : P ' ') (buf word : Str)
    (hbuf : ∀ ch ∈ buf, P ch) (hword : ∀ ch ∈ word, P ch) : ∀ ch ∈ testLine buf word, P ch := by
  unfold testLine
  split_ifs
  · exact hword
  · intro ch hch
    rcases List.mem_append.1 hch with h | h
    · exact hbuf ch h
    · rcases List.mem_cons.1 h with h2 | h2
      · rw [h2]; exact hsp
      · exact hword ch h2

theorem wrapLoopE_sound {F : Type} (lib : FontLib F) (e : Env F) (f : F) (s x : ℚ)
    (words : List Str) :
    ∀ (c : Cursor) (buf : Str) (r : Cursor × Str × List (DrawCall F)),
      wrapLoopE lib e f s x c buf words = some r → r = wrapLoop e f s x c buf words := by
  induction words with
  | nil =>
    intro c buf r h
    rw [wrapLoopE] at h
    rw [wrapLoop]
    exact (Option.some.inj h).symm
  | cons word rest ih =>
    intro c buf r h
    rw [wrapLoopE] at h
    by_cases hm : lib.measures (if isWordBold word = true then e.boldFont else f)
        (testLine buf word) = true
    · rw [if_pos hm] at h
      by_cases hw : measuredWidth e f s buf word < e.maxWidth - x
      · rw [if_pos hw] at h
        rw [wrapLoop_fit e f s x c buf word rest hw]
        exact ih _ _ _ h
      · rw [if_neg hw] at h
        by_cases hd : lib.draws f buf = true
        · rw [if_pos hd] at h
          rw [wrapLoop_break e f s x c buf word rest hw]
          cases hr : wrapLoopE lib e f s x
              (pageBreak e { c with currentY := c.currentY - e.defaultLineHeight }) word rest with
          | none => rw [hr] at h; exact absurd h (by simp)
          | some r2 =>
            rw [hr] at h
            rw [← ih _ _ _ hr]
            exact (Option.some.inj h).symm
        · rw [if_neg hd] at h
          exact absurd h (by simp)
    · rw [if_neg hm] at h
      exact absurd h (by simp)

theorem wrapLoopE_complete {F : Type} (lib : FontLib F) (e : Env F) (f : F) (s x : ℚ)
    (P : Char → Prop) (hsp : P ' ')
    (hlib : ∀ (g : F) (t : Str), (∀ ch ∈ t, P ch) →
      lib.measures g t = true ∧ lib.draws g t = true)
    (words : List Str) :
    ∀ (c : Cursor) (buf : Str), (∀ ch ∈ buf, P ch) → (∀ w ∈ words, ∀ ch ∈ w, P ch) →
      wrapLoopE lib e f s x c buf words = some (wrapLoop e f s x c buf words) ∧
        ∀ ch ∈ (wrapLoop e f s x c buf words).2.1, P ch := by
  induction words with
  | nil =>
    intro c buf hbuf _
    rw [wrapLoopE, wrapLoop]
    exact ⟨rfl, hbuf⟩
  | cons word rest ih =>
    intro c buf hbuf hws
    have hword : ∀ ch ∈ word, P ch := hws word (List.mem_cons_self _ _)
    have hrest : ∀ w ∈ rest, ∀ ch ∈ w, P ch := fun w hw => hws w (List.mem_cons_of_mem _ hw)
    have htl := testLine_chars P hsp buf word hbuf hword
    rw [wrapLoopE, if_pos (hlib _ _ htl).1]
    by_cases hw : measuredWidth e f s buf word < e.maxWidth - x
    · rw [if_pos hw, wrapLoop_fit e f s x c buf word rest hw]
      exact ih c _ htl hrest
    · rw [if_neg hw, if_pos (hlib f buf hbuf).2, wrapLoop_break e f s x c buf word rest hw]
      obtain ⟨h1, h2⟩ :=
        ih (pageBreak e { c with currentY := c.currentY - e.defaultLineHeight }) word hword hrest
      rw [h1]
      exact ⟨rfl, h2⟩

theorem wrapAndDrawE_sound {F : Type} (lib : FontLib F) (e : Env F) (f : F) (s x : ℚ)
    (c : Cursor) (t : Str) (r : Cursor × List (DrawCall F))
    (h : wrapAndDrawE lib e f s x c t = some r) : r = wrapAndDraw e f s x c t := by
  unfold wrapAndDrawE at h
  cases hl : wrapLoopE lib e f s x c [] (split ' ' t) with
  | none => rw [hl] at h; exact absurd h (by simp)
  | some r1 =>
    rw [hl] at h
    have h1 := wrapLoopE_sound lib e f s x _ _ _ _ hl
    dsimp only at h
    by_cases hd : lib.draws f r1.2.1 = true
    · rw [if_pos hd] at h
      unfold wrapAndDraw
      rw [← h1]
      exact (Option.some.inj h).symm
    · rw [if_neg hd] at h
      exact absurd h (by simp)

theorem wrapAndDrawE_complete {F : Type} (lib : FontLib F) (e : Env F) (f : F) (s x : ℚ)
    (P : Char → Prop) (hsp : P ' ')
    (hlib : ∀ (g : F) (t : Str), (∀ ch ∈ t, P ch) →
      lib.measures g t = true ∧ lib.draws g t = true)
    (c : Cursor) (t : Str) (ht : ∀ ch ∈ t, P ch) :
    wrapAndDrawE lib e f s x c t = some (wrapAndDraw e f s x c t) := by
  obtain ⟨h1, h2⟩ := wrapLoopE_complete lib e f s x P hsp hlib (split ' ' t) c []
    (fun ch hch => absurd hch (List.not_mem_nil ch))
    (fun w hw ch hch => ht ch (mem_of_mem_split ' ' t w hw ch hch))
  unfold wrapAndDrawE
  rw [h1]
  dsimp only
  rw [if_pos (hlib f _ h2).2]
  rfl

theorem processLineE_sound {F : Type} (lib : FontLib F) (e : Env F) (c : Cursor) (line : Str)
    (r : Cursor × List (DrawCall F)) (h : processLineE lib e c line = some r) :
    r = processLine e c line := by
  unfold processLineE at h
  unfold processLine
  dsimp only at h ⊢
  split_ifs at h ⊢ with h1 h2 h3 h4 h5
  · exact (Option.some.inj h).symm
  · exact wrapAndDrawE_sound lib e _ _ _ _ _ r h
  · exact (Option.some.inj h).symm
  · cases hr : wrapAndDrawE lib e e.font e.size 15 (pageBreak e c) (substring 2 line) with
    | none => rw [hr] at h; exact absurd h (by simp)
    | some r2 =>
      rw [hr] at h
      rw [← wrapAndDrawE_sound lib e _ _ _ _ _ r2 hr]
      exact (Option.some.inj h).symm
  · exact wrapAndDrawE_sound lib e _ _ _ _ _ r h

theorem processLineE_complete {F : Type} (lib : FontLib F) (e : Env F) (P : Char → Prop)
    (hsp : P ' ')
    (hlib : ∀ (g : F) (t : Str), (∀ ch ∈ t, P ch) →
      lib.measures g t = true ∧ lib.draws g t = true)
    (hglyph : ∀ ch ∈ bulletGlyph, P ch) (c : Cursor) (line : Str) (hline : ∀ ch ∈ line, P ch) :
    processLineE lib e c line = some (processLine e c line) := by
  have hdrop : ∀ n, ∀ ch ∈ substring n line, P ch :=
    fun n ch hch => hline ch (List.mem_of_mem_drop hch)
  unfold processLineE processLine
  dsimp only
  split_ifs with h1 h2 h3 h4 h5
  · rfl
  · exact wrapAndDrawE_complete lib e _ _ _ P hsp hlib _ _ (hdrop 4)
  · rfl
  · rw [wrapAndDrawE_complete lib e _ _ _ P hsp hlib _ _ (hdrop 2)]
  · exact absurd (hlib e.font bulletGlyph hglyph).2 h5
  · exact wrapAndDrawE_complete lib e _ _ _ P hsp hlib _ _ hline

theorem drawLinesE_sound {F : Type} (lib : FontLib F) (e : Env F) (lines : List Str) :
    ∀ (c : Cursor) (r : Cursor × List (DrawCall F)),
      drawLinesE lib e c lines = some r → r = drawLines e c lines := by
  induction lines with
  | nil =>
    intro c r h
    rw [drawLinesE] at h
    rw [drawLines]
    exact (Option.some.inj h).symm
  | cons line rest ih =>
    intro c r h
    rw [drawLinesE] at h
    cases h1 : processLineE lib e c line with
    | none => rw [h1] at h; exact absurd h (by simp)
    | some r1 =>
      rw [h1] at h
      dsimp only at h
      cases h2 : drawLinesE lib e r1.1 rest with
      | none => rw [h2] at h; exact absurd h (by simp)
      | some r2 =>
        rw [h2] at h
        have e1 := processLineE_sound lib e c line r1 h1
        have e2 := ih r1.1 r2 h2
        rw [drawLines, ← e1, ← e2]
        exact (Option.some.inj h).symm

theorem drawLinesE_complete {F : Type} (lib : FontLib F) (e : Env F) (P : Char → Prop)
    (hsp : P ' ')
    (hlib : ∀ (g : F) (t : Str), (∀ ch ∈ t, P ch) →
      lib.measures g t = true ∧ lib.draws g t = true)
    (hglyph : ∀ ch ∈ bulletGlyph, P ch) (lines : List Str) :
    ∀ c : Cursor, (∀ line ∈ lines, ∀ ch ∈ line, P ch) →
      drawLinesE lib e c lines = some (drawLines e c lines) := by
  induction lines with
  | nil => intro c _; rw [drawLinesE, drawLines]
  | cons line rest ih =>
    intro c hlines
    rw [drawLinesE,
      processLineE_complete lib e P hsp hlib hglyph c line (hlines line (List.mem_cons_self _ _))]
    dsimp only
    rw [ih _ (fun l hl => hlines l (List.mem_cons_of_mem _ hl)), drawLines]

theorem drawWrappedTextE_sound {F : Type} (lib : FontLib F) (addPage : Nat → Page)
    (widthOfTextAtSize : F → Str → ℚ → ℚ) (page : Page) (text : Str) (yStart : ℚ)
    (font boldFont : F) (size : ℚ) (r : Cursor × List (DrawCall F))
    (h : drawWrappedTextE lib addPage widthOfTextAtSize page text yStart font boldFont size
      = some r) :
    r = drawWrappedText addPage widthOfTextAtSize page text yStart font boldFont size := by
  rw [drawWrappedText_eq_drawLines]
  exact drawLinesE_sound lib _ _ _ r h

theorem processLineE_blank {F : Type} (lib : FontLib F) (e : Env F) (c : Cursor) (line : Str)
    (h : trim line = []) :
    processLineE lib e c line = some (processLine e c line) := by
  unfold processLineE processLine
  simp only [h, if_true]

/-! ## Theorems on the returned cursor, on errors and on the tentative line -/

/-- C11: `drawWrappedText` returns the final cursor.  Its page number is the
number of check points at which a page was added; its page is the page passed in
when that number is zero and the page returned by the last call of `addPage`
otherwise.  The cursor is the one the loop body leaves after the last line of the
text: after a blank last line its y is the y after the page check minus one line
height (1.2 times the size) and no call was added; after any other last line the
last draw call of the whole text is on the returned page and the returned y is
the y of that call minus one line height, so below it for a positive size. -/
theorem drawWrappedText_returns_final_cursor {F : Type} (addPage : Nat → Page)
    (widthOfTextAtSize : F → Str → ℚ → ℚ) (page : Page) (text : Str) (yStart : ℚ)
    (font boldFont : F) (size : ℚ) :
    (drawWrappedText addPage widthOfTextAtSize page text yStart font boldFont size).1.pageNo =
      pagesAddedAt (drawLinesChecks (callEnv addPage widthOfTextAtSize page font boldFont size)
        { pageNo := 0, currentPage := page, currentY := yStart } (split '\n' text)) ∧
    ((drawWrappedText addPage widthOfTextAtSize page text yStart font boldFont size).1.pageNo = 0 →
      (drawWrappedText addPage widthOfTextAtSize page text yStart font boldFont size).1.currentPage
        = page) ∧
    (∀ k : Nat,
      (drawWrappedText addPage widthOfTextAtSize page text yStart font boldFont size).1.pageNo
        = k + 1 →
      (drawWrappedText addPage widthOfTextAtSize page text yStart font boldFont size).1.currentPage
        = addPage k) ∧
    (∃ init last, split '\n' text = init ++ [last]) ∧
    ∀ init last, split '\n' text = init ++ [last] →
      (drawWrappedText addPage widthOfTextAtSize page text yStart font boldFont size).1 =
        (processLine (callEnv addPage widthOfTextAtSize page font boldFont size)
          (drawLines (callEnv addPage widthOfTextAtSize page font boldFont size)
            { pageNo := 0, currentPage := page, currentY := yStart } init).1 last).1 ∧
      (trim last = [] →
        (drawWrappedText addPage widthOfTextAtSize page text yStart font boldFont size).2 =
          (drawLines (callEnv addPage widthOfTextAtSize page font boldFont size)
            { pageNo := 0, currentPage := page, currentY := yStart } init).2 ∧
        (drawWrappedText addPage widthOfTextAtSize page text yStart font boldFont size).1.currentY =
          (pageBreak (callEnv addPage widthOfTextAtSize page font boldFont size)
            (drawLines (callEnv addPage widthOfTextAtSize page font boldFont size)
              { pageNo := 0, currentPage := page, currentY := yStart } init).1).currentY
            - 1.2 * size) ∧
      (trim last ≠ [] →
        ∃ d,
          (drawWrappedText addPage widthOfTextAtSize page text yStart font boldFont size).2.getLast?
            = some d ∧
          d.page =
            (drawWrappedText addPage widthOfTextAtSize page text yStart font boldFont
              size).1.pageNo ∧
          ∀ y ∈ d.ys,
            (drawWrappedText addPage widthOfTextAtSize page text yStart font boldFont
              size).1.currentY = y - 1.2 * size ∧
            (0 < size →
              (drawWrappedText addPage widthOfTextAtSize page text yStart font boldFont
                size).1.currentY < y)) := by
  rw [drawWrappedText_eq_drawLines]
  have hl : (callEnv addPage widthOfTextAtSize page font boldFont size).defaultLineHeight
      = 1.2 * size := by
    show size * 1.2 = 1.2 * size
    ring
  have hpn := drawLines_pages (callEnv addPage widthOfTextAtSize page font boldFont size)
    (split '\n' text) { pageNo := 0, currentPage := page, currentY := yStart }
  have hpg := drawLines_pageOf (callEnv addPage widthOfTextAtSize page font boldFont size) page
    (split '\n' text) { pageNo := 0, currentPage := page, currentY := yStart } rfl
  refine ⟨by simpa using hpn, ?_, ?_,
    ⟨_, _, (List.dropLast_append_getLast (split_ne_nil '\n' text)).symm⟩, ?_⟩
  · intro h0
    rw [hpg, h0]
    rfl
  · intro k hk
    rw [hpg, hk]
    rfl
  · intro init last h
    rw [h, drawLines_append, drawLines_singleton]
    refine ⟨rfl, ?_, ?_⟩
    · intro hb
      rw [processLine_blank _ _ _ hb]
      refine ⟨by simp, ?_⟩
      show _ - (callEnv addPage widthOfTextAtSize page font boldFont size).defaultLineHeight = _
      rw [hl]
    · intro hne
      obtain ⟨d, h1, h2, h3⟩ :=
        processLine_last (callEnv addPage widthOfTextAtSize page font boldFont size)
          (drawLines (callEnv addPage widthOfTextAtSize page font boldFont size)
            { pageNo := 0, currentPage := page, currentY := yStart } init).1 last hne
      refine ⟨d, getLast?_append_of_getLast? _ _ _ h1, h2, ?_⟩
      intro y hy
      have h4 := h3 y hy
      rw [hl] at h4
      refine ⟨h4, fun hs => ?_⟩
      show (processLine (callEnv addPage widthOfTextAtSize page font boldFont size)
          (drawLines (callEnv addPage widthOfTextAtSize page font boldFont size)
            { pageNo := 0, currentPage := page, currentY := yStart } init).1 last).1.currentY < y
      rw [h4]
      linarith

/-- Witness for C11: in the text `"### Hi\nbody"` the last line is `"body"`; the
last draw call is on the returned page and the returned y is its y minus 12. -/
theorem drawWrappedText_returns_final_cursor_witness :
    split '\n' "### Hi\nbody".toList = ["### Hi".toList] ++ ["body".toList] ∧
    trim "body".toList ≠ [] ∧
    ∃ d,
      (drawWrappedText (fun _ => a4) sampleWidth ⟨600, 800⟩ "### Hi\nbody".toList 750
        StdFont.helvetica StdFont.helveticaBold 10).2.getLast? = some d ∧
      d.page =
        (drawWrappedText (fun _ => a4) sampleWidth ⟨600, 800⟩ "### Hi\nbody".toList 750
          StdFont.helvetica StdFont.helveticaBold 10).1.pageNo ∧
      ∀ y ∈ d.ys,
        (drawWrappedText (fun _ => a4) sampleWidth ⟨600, 800⟩ "### Hi\nbody".toList 750
          StdFont.helvetica StdFont.helveticaBold 10).1.currentY = y - 1.2 * 10 ∧
        ((0 : ℚ) < 10 →
          (drawWrappedText (fun _ => a4) sampleWidth ⟨600, 800⟩ "### Hi\nbody".toList 750
            StdFont.helvetica StdFont.helveticaBold 10).1.currentY < y) :=
  ⟨by decide, by decide,
    ((drawWrappedText_returns_final_cursor (fun _ => a4) sampleWidth ⟨600, 800⟩
      "### Hi\nbody".toList 750 StdFont.helvetica StdFont.helveticaBold 10).2.2.2.2
      ["### Hi".toList] "body".toList (by decide)).2.2 (by decide)⟩

/-- C12, refuted as stated: with a font library that cannot encode the tab
character for measuring, as the standard fonts of pdf-lib cannot,
`drawWrappedText` returns no result for the text `"a\tb"`: the call
`widthOfTextAtSize` on the first tentative line throws. -/
theorem drawWrappedText_throws_on_tab :
    ¬ ∃ r, drawWrappedTextE sampleLib (fun _ => a4) sampleWidth ⟨600, 800⟩ "a\tb".toList 750
      StdFont.helvetica StdFont.helveticaBold 10 = some r := by
  have h : drawWrappedTextE sampleLib (fun _ => a4) sampleWidth ⟨600, 800⟩ "a\tb".toList 750
      StdFont.helvetica StdFont.helveticaBold 10 = none := by decide!
  rintro ⟨r, hr⟩
  rw [h] at hr
  exact absurd hr (by simp)

/-- C12, amended: `drawWrappedText` returns a result, without an error, for every
text, start y, page, size and font metric, whenever the font library measures and
draws every string made of the characters of the text other than the line feed,
of the space and of the characters of the bullet string.  The result is the one
of the routine without errors: at most one draw call per word plus two per line,
and at most one page added per word plus one per line.  For the empty text it
returns with no draw call whatever the library encodes, and with any library a
result that is returned is the one of the routine without errors. -/
theorem drawWrappedText_returns_when_encodable {F : Type} (lib : FontLib F)
    (addPage : Nat → Page) (widthOfTextAtSize : F → Str → ℚ → ℚ) (page : Page) (text : Str)
    (yStart : ℚ) (font boldFont : F) (size : ℚ)
    (hlib : ∀ (g : F) (t : Str),
      (∀ ch ∈ t, (ch ∈ text ∧ ch ≠ '\n') ∨ ch = ' ' ∨ ch ∈ bulletGlyph) →
        lib.measures g t = true ∧ lib.draws g t = true) :
    drawWrappedTextE lib addPage widthOfTextAtSize page text yStart font boldFont size =
      some (drawWrappedText addPage widthOfTextAtSize page text yStart font boldFont size) ∧
    (drawWrappedText addPage widthOfTextAtSize page text yStart font boldFont size).2.length ≤
      ((split '\n' text).map (fun l => (split ' ' l).length + 2)).sum ∧
    (drawWrappedText addPage widthOfTextAtSize page text yStart font boldFont size).1.pageNo ≤
      ((split '\n' text).map (fun l => (split ' ' l).length + 1)).sum ∧
    (∃ cursor, drawWrappedTextE lib addPage widthOfTextAtSize page [] yStart font boldFont size =
      some (cursor, [])) ∧
    ∀ (lib2 : FontLib F) (r : Cursor × List (DrawCall F)),
      drawWrappedTextE lib2 addPage widthOfTextAtSize page text yStart font boldFont size
        = some r →
      r = drawWrappedText addPage widthOfTextAtSize page text yStart font boldFont size := by
  have hsize := drawLines_size (callEnv addPage widthOfTextAtSize page font boldFont size)
    (split '\n' text) { pageNo := 0, currentPage := page, currentY := yStart }
  refine ⟨?_, ?_, ?_, ?_, fun lib2 r h => ?_⟩
  rotate_left 4
  · rw [drawWrappedText_eq_drawLines]
    exact drawLinesE_sound lib2 _ _ _ r h
  · rw [drawWrappedText_eq_drawLines]
    exact drawLinesE_complete lib _
      (fun ch => (ch ∈ text ∧ ch ≠ '\n') ∨ ch = ' ' ∨ ch ∈ bulletGlyph)
      (Or.inr (Or.inl rfl)) hlib (fun ch hch => Or.inr (Or.inr hch)) (split '\n' text) _
      (fun line hline ch hch => Or.inl ⟨mem_of_mem_split '\n' text line hline ch hch,
        fun hc => not_mem_of_mem_split '\n' text line hline (hc ▸ hch)⟩)
  · rw [drawWrappedText_eq_drawLines]
    exact hsize.1
  · rw [drawWrappedText_eq_drawLines]
    simpa using hsize.2
  · have hs : split '\n' ([] : Str) = [[]] := by simp [split]
    refine ⟨(processLine (callEnv addPage widthOfTextAtSize page font boldFont size)
      { pageNo := 0, currentPage := page, currentY := yStart } []).1, ?_⟩
    unfold drawWrappedTextE
    rw [hs, drawLinesE, processLineE_blank lib _ _ [] (by decide)]
    dsimp only
    rw [drawLinesE]
    dsimp only
    rw [processLine_blank _ _ _ (by decide)]
    rfl

/-- Witness for C12, amended: the sample library encodes the printable ASCII
characters and the bullet string, so the text `"* a\n---"` is drawn. -/
theorem drawWrappedText_returns_when_encodable_witness :
    (∀ (g : StdFont) (t : Str),
      (∀ ch ∈ t, (ch ∈ ['*', ' ', 'a', '\n', '-', '-', '-'] ∧ ch ≠ '\n') ∨ ch = ' ' ∨
        ch ∈ bulletGlyph) →
        sampleLib.measures g t = true ∧ sampleLib.draws g t = true) ∧
    drawWrappedTextE sampleLib (fun _ => a4) sampleWidth ⟨600, 800⟩
        ['*', ' ', 'a', '\n', '-', '-', '-'] 750 StdFont.helvetica StdFont.helveticaBold 10 =
      some (drawWrappedText (fun _ => a4) sampleWidth ⟨600, 800⟩
        ['*', ' ', 'a', '\n', '-', '-', '-'] 750 StdFont.helvetica StdFont.helveticaBold 10) := by
  have hch : ∀ ch : Char,
      ((ch ∈ ['*', ' ', 'a', '\n', '-', '-', '-'] ∧ ch ≠ '\n') ∨ ch = ' ' ∨ ch ∈ bulletGlyph) →
        ((0x20 ≤ ch.toNat && ch.toNat ≤ 0x7E) || bulletGlyph.contains ch) = true := by
    intro ch h
    rcases h with ⟨h1, h2⟩ | h | h
    · have h3 : ch = '*' ∨ ch = ' ' ∨ ch = 'a' ∨ ch = '\n' ∨ ch = '-' := by
        simpa using h1
      rcases h3 with h3 | h3 | h3 | h3 | h3
      · rw [h3]; decide
      · rw [h3]; decide
      · rw [h3]; decide
      · exact absurd h3 h2
      · rw [h3]; decide
    · rw [h]; decide
    · have h3 : bulletGlyph.contains ch = true := List.elem_eq_true_of_mem h
      rw [h3, Bool.or_true]
  have hlib : ∀ (g : StdFont) (t : Str),
      (∀ ch ∈ t, (ch ∈ ['*', ' ', 'a', '\n', '-', '-', '-'] ∧ ch ≠ '\n') ∨ ch = ' ' ∨
        ch ∈ bulletGlyph) →
        sampleLib.measures g t = true ∧ sampleLib.draws g t = true := by
    intro g t ht
    constructor
    · show t.all _ = true
      rw [List.all_eq_true]
      intro ch hc
      exact hch ch (ht ch hc)
    · show t.all _ = true
      rw [List.all_eq_true]
      intro ch hc
      rw [Bool.or_eq_true]
      exact Or.inl (hch ch (ht ch hc))
  exact ⟨hlib, (drawWrappedText_returns_when_encodable sampleLib (fun _ => a4) sampleWidth
    ⟨600, 800⟩ ['*', ' ', 'a', '\n', '-', '-', '-'] 750 StdFont.helvetica StdFont.helveticaBold
    10 hlib).1⟩

/-- C18, amended: the words wrapped are the pieces of the text between single
space characters (`split(' ')`): joined by one space they give the text back, no
word contains a space, and there is one more word than there are spaces, so a run
of spaces yields empty words and other white space stays inside its word (a text
without a space is one word).  Every
word, empty or not, becomes the tentative line alone when the line buffer is
empty and is appended to the buffer after one space otherwise: an empty word
leaves an empty buffer empty and adds one trailing space to a buffer that is not
empty, so `" a b "` is drawn as `"a b "`.  The words drawn are the non-empty
ones, in order. -/
theorem words_are_space_separated {F : Type} (e : Env F) (f : F) (s x : ℚ) (c : Cursor)
    (t : Str) :
    (wrapAndDraw e f s x c t).2 =
      (wrapLoop e f s x c [] (split ' ' t)).2.2 ++
        [DrawCall.drawText (wrapLoop e f s x c [] (split ' ' t)).1.pageNo
          (wrapLoop e f s x c [] (split ' ' t)).2.1 (margin + x)
          (wrapLoop e f s x c [] (split ' ' t)).1.currentY f s] ∧
    List.intercalate [' '] (split ' ' t) = t ∧
    (∀ w ∈ split ' ' t, ' ' ∉ w) ∧
    (split ' ' t).length = t.count ' ' + 1 ∧
    (∀ u : Str, ' ' ∉ u → split ' ' u = [u]) ∧
    drawnWords (wrapAndDraw e f s x c t).2 = (split ' ' t).filter (fun w => !w.isEmpty) ∧
    (∀ word : Str, testLine [] word = word) ∧
    (∀ buf word : Str, buf ≠ [] → testLine buf word = buf ++ ' ' :: word) ∧
    testLine [] [] = [] ∧
    (∀ buf : Str, buf ≠ [] → testLine buf [] = buf ++ [' ']) ∧
    split ' ' " a b ".toList = [[], "a".toList, "b".toList, []] ∧
    (processLine sampleEnv sampleCursor " a b ".toList).2 =
      [DrawCall.drawText 0 "a b ".toList 50 750 StdFont.helvetica 10] :=
  ⟨rfl, intercalate_split ' ' t, fun w hw => not_mem_of_mem_split ' ' t w hw,
    split_length ' ' t, fun u hu => split_of_not_mem ' ' u hu, wrapAndDraw_words e f s x c t,
    fun _ => by simp [testLine], fun buf word h => by simp [testLine, h],
    by simp [testLine], fun buf h => by simp [testLine, h], by decide, by decide!⟩

end Pdfer
